import Mathlib

/-!
Verification of the Cipherlink E2EE platform's cryptographic core and
relay-side replay gate, as a shallow embedding of the TypeScript/JavaScript
sources (client crypto module, relay replay-protection middleware, relay
key-exchange and message routes, and the persistent message model).

Conventions of the embedding:
* JavaScript strings are Lean `String`s; byte buffers (`Uint8Array`) are
  `List Nat` with every element `< 256`.
* `Map` objects are association lists (`alistGet` / `alistSet`), matching
  `Map.get` / `Map.set` observationally.
* JavaScript truthiness on optional request-body fields is made explicit:
  a missing field is `none`, and the code's `!x` test on a string is
  `x = none ∨ x = some ""`, on a number `x = none ∨ x = some 0`.
* Platform crypto and text primitives (`AES-GCM`, `TextEncoder`/`TextDecoder`)
  are parameters packaged with the functional contracts the platform
  guarantees for them; `btoa`/`atob` (base64) are implemented concretely
  because the source's own validation logic inspects the encoded text.
-/

namespace Cipherlink

/-! ## JavaScript truthiness on optional body fields -/

/-- Truthiness of an optional string field: `!x` is false exactly when the
field is present and non-empty. -/
def truthyStr : Option String → Bool
  | some s => s ≠ ""
  | none => false

/-- Truthiness of an optional numeric field: `!x` is false exactly when the
field is present and non-zero. -/
def truthyInt : Option Int → Bool
  | some n => n ≠ 0
  | none => false

/-! ## Association lists: the observable behaviour of a JS `Map` -/

/-- `Map.get` --- the value stored under `k`, if any. -/
def alistGet {α : Type} : List (String × α) → String → Option α
  | [], _ => none
  | (k', v) :: rest, k => if k' = k then some v else alistGet rest k

/-- `Map.set` --- store `v` under `k`, replacing any previous binding. -/
def alistSet {α : Type} (l : List (String × α)) (k : String) (v : α) :
    List (String × α) :=
  (k, v) :: l.filter (fun p => p.1 ≠ k)

/-- `Map.delete` --- remove the binding for `k`. -/
def alistRemove {α : Type} (l : List (String × α)) (k : String) :
    List (String × α) :=
  l.filter (fun p => p.1 ≠ k)

theorem alistGet_filter_ne {α : Type} (l : List (String × α)) (k k' : String)
    (h : k' ≠ k) : alistGet (l.filter (fun p => p.1 ≠ k)) k' = alistGet l k' := by
  induction l with
  | nil => rfl
  | cons hd tl ih =>
    obtain ⟨a, b⟩ := hd
    simp only [ne_eq, decide_not] at ih ⊢
    by_cases ha : a = k
    · subst ha
      have hak : ¬ a = k' := fun he => h he.symm
      rw [List.filter_cons, if_neg (by simp), ih]
      simp [alistGet, hak]
    · rw [List.filter_cons, if_pos (by simp [ha])]
      by_cases ha' : a = k'
      · subst ha'
        simp [alistGet]
      · simp [alistGet, ha', ih]

theorem alistGet_alistSet {α : Type} (l : List (String × α)) (k k' : String) (v : α) :
    alistGet (alistSet l k v) k' = if k' = k then some v else alistGet l k' := by
  by_cases h : k' = k
  · subst h; simp [alistSet, alistGet]
  · have hk : ¬ k = k' := fun he => h he.symm
    simp only [alistSet, alistGet, if_neg hk, if_neg h]
    exact alistGet_filter_ne l k k' h

/-! ## Base64 (`btoa` / `atob`) -/

/-- The base64 alphabet in index order. -/
def base64Table : List Char :=
  "ABCDEFGHIJKLMNOPQRSTUVWXYZabcdefghijklmnopqrstuvwxyz0123456789+/".data

/-- Sextet value `n` (`n < 64`) to its base64 character. -/
def base64Char (n : Nat) : Char := base64Table.getD n 'A'

/-- Base64 character back to its sextet value (`none` for padding or
foreign characters). -/
def base64Val (c : Char) : Option Nat := base64Table.indexOf? c

/-- Encode a byte list into base64 characters, three bytes at a time,
padding the final partial group with `=`. -/
def base64EncodeChars : List Nat → List Char
  | a :: b :: c :: rest =>
      base64Char (a / 4) :: base64Char ((a % 4) * 16 + b / 16) ::
      base64Char ((b % 16) * 4 + c / 64) :: base64Char (c % 64) ::
      base64EncodeChars rest
  | [a, b] =>
      [base64Char (a / 4), base64Char ((a % 4) * 16 + b / 16),
       base64Char ((b % 16) * 4), '=']
  | [a] =>
      [base64Char (a / 4), base64Char ((a % 4) * 16), '=', '=']
  | [] => []

/-- Decode base64 characters into bytes; `none` on malformed input. -/
def base64DecodeChars : List Char → Option (List Nat)
  | [] => some []
  | c1 :: c2 :: c3 :: c4 :: rest =>
      match base64Val c1, base64Val c2 with
      | some s1, some s2 =>
          if c3 = '=' then
            if c4 = '=' ∧ rest = [] then some [s1 * 4 + s2 / 16] else none
          else
            match base64Val c3 with
            | some s3 =>
                if c4 = '=' then
                  if rest = [] then
                    some [s1 * 4 + s2 / 16, (s2 % 16) * 16 + s3 / 4]
                  else none
                else
                  match base64Val c4 with
                  | some s4 =>
                      (base64DecodeChars rest).map
                        (fun bs => (s1 * 4 + s2 / 16) :: ((s2 % 16) * 16 + s3 / 4) ::
                                   ((s3 % 4) * 64 + s4) :: bs)
                  | none => none
            | none => none
      | _, _ => none
  | _ => none

/-- `btoa(String.fromCharCode(...bytes))` --- bytes to a base64 string. -/
def bytesToB64 (bs : List Nat) : String := ⟨base64EncodeChars bs⟩

/-- `Uint8Array.from(atob(s), c => c.charCodeAt(0))` --- base64 string to
bytes (`none` models the `InvalidCharacterError` that `atob` throws). -/
def b64ToBytes (s : String) : Option (List Nat) := base64DecodeChars s.data

theorem base64Val_base64Char (n : Nat) (h : n < 64) : base64Val (base64Char n) = some n := by
  unfold base64Val base64Char
  interval_cases n <;> decide

theorem base64Char_ne_eq (n : Nat) (h : n < 64) : base64Char n ≠ '=' := by
  unfold base64Char
  interval_cases n <;> decide

/-- `atob` inverts `btoa` on genuine byte lists. -/
theorem base64DecodeChars_encodeChars (bs : List Nat) (h : ∀ b ∈ bs, b < 256) :
    base64DecodeChars (base64EncodeChars bs) = some bs := by
  induction bs using base64EncodeChars.induct with
  | case1 a b c rest ih =>
    have ha : a < 256 := h a (by simp)
    have hb : b < 256 := h b (by simp)
    have hc : c < 256 := h c (by simp)
    have h1 : a / 4 < 64 := by omega
    have h2 : (a % 4) * 16 + b / 16 < 64 := by omega
    have h3 : (b % 16) * 4 + c / 64 < 64 := by omega
    have h4 : c % 64 < 64 := by omega
    have hn3 : ¬ (base64Char ((b % 16) * 4 + c / 64) = '=') := base64Char_ne_eq _ h3
    have hn4 : ¬ (base64Char (c % 64) = '=') := base64Char_ne_eq _ h4
    have ihrest : base64DecodeChars (base64EncodeChars rest) = some rest :=
      ih (fun x hx => h x (by simp [hx]))
    rw [base64EncodeChars, base64DecodeChars]
    rw [base64Val_base64Char _ h1, base64Val_base64Char _ h2,
        base64Val_base64Char _ h3, base64Val_base64Char _ h4]
    simp only [hn3, hn4, if_false, ihrest, Option.map_some', Option.some.injEq,
      List.cons.injEq, ite_false]
    refine ⟨by omega, by omega, by omega, trivial⟩
  | case2 a b =>
    have ha : a < 256 := h a (by simp)
    have hb : b < 256 := h b (by simp)
    have h1 : a / 4 < 64 := by omega
    have h2 : (a % 4) * 16 + b / 16 < 64 := by omega
    have h3 : (b % 16) * 4 < 64 := by omega
    have hn3 : ¬ (base64Char ((b % 16) * 4) = '=') := base64Char_ne_eq _ h3
    rw [base64EncodeChars, base64DecodeChars]
    rw [base64Val_base64Char _ h1, base64Val_base64Char _ h2, base64Val_base64Char _ h3]
    simp only [hn3, if_false, ite_false, if_true, ite_true, Option.some.injEq,
      List.cons.injEq, List.nil_eq, and_true, true_and, reduceIte]
    refine ⟨by omega, by omega⟩
  | case3 a =>
    have ha : a < 256 := h a (by simp)
    have h1 : a / 4 < 64 := by omega
    have h2 : (a % 4) * 16 < 64 := by omega
    rw [base64EncodeChars, base64DecodeChars]
    rw [base64Val_base64Char _ h1, base64Val_base64Char _ h2]
    simp only [Option.some.injEq, List.cons.injEq, and_true, true_and, reduceIte,
      List.nil_eq]
    omega
  | case4 => rfl

/-- Length of a base64 encoding: four characters per (partial) group of three
bytes. -/
theorem base64EncodeChars_length (bs : List Nat) :
    (base64EncodeChars bs).length = 4 * ((bs.length + 2) / 3) := by
  induction bs using base64EncodeChars.induct with
  | case1 a b c rest ih =>
    rw [base64EncodeChars]
    simp only [List.length_cons, ih]
    omega
  | case2 a b => simp [base64EncodeChars]
  | case3 a => simp [base64EncodeChars]
  | case4 => rfl

/-! ## Nonce format validation (client, `validateNonce`)

The source tests `nonce.length >= 16 && /^[A-Za-z0-9+/]+=*$/.test(nonce)`:
at least 16 characters, a non-empty run of base64 alphabet characters
followed only by `=` padding. -/

/-- A character of the base64 alphabet class `[A-Za-z0-9+/]`. -/
def isB64Char (c : Char) : Bool := c.isAlphanum || c = '+' || c = '/'

/-- The regular expression `^[A-Za-z0-9+/]+=*$`: since `=` is not in the
alphabet class, a string matches exactly when its maximal alphabet prefix is
non-empty and everything after it is `=`. -/
def validB64Format (s : String) : Bool :=
  s.data.takeWhile isB64Char ≠ [] && (s.data.dropWhile isB64Char).all (fun c => c = '=')

/-- `validateNonce` from the client crypto module. -/
def validateNonce (nonce : String) : Bool :=
  nonce.length ≥ 16 && validB64Format nonce

theorem isB64Char_base64Char (n : Nat) (h : n < 64) : isB64Char (base64Char n) = true := by
  unfold isB64Char base64Char
  interval_cases n <;> decide

theorem takeWhile_append_all {p : Char → Bool} (xs ys : List Char)
    (h : ∀ x ∈ xs, p x = true) : (xs ++ ys).takeWhile p = xs ++ ys.takeWhile p := by
  induction xs with
  | nil => rfl
  | cons a l ih =>
    simp only [List.cons_append, List.takeWhile_cons, h a (by simp), reduceIte]
    rw [ih (fun x hx => h x (by simp [hx]))]

theorem dropWhile_append_all {p : Char → Bool} (xs ys : List Char)
    (h : ∀ x ∈ xs, p x = true) : (xs ++ ys).dropWhile p = ys.dropWhile p := by
  induction xs with
  | nil => rfl
  | cons a l ih =>
    simp only [List.cons_append, List.dropWhile_cons, h a (by simp), reduceIte]
    exact ih (fun x hx => h x (by simp [hx]))

/-- The encoding of a byte list splits into an alphabet body followed by
`=` padding. -/
theorem base64EncodeChars_split (bs : List Nat) (h : ∀ b ∈ bs, b < 256) :
    ∃ body pad, base64EncodeChars bs = body ++ pad ∧
      (∀ c ∈ body, isB64Char c = true) ∧ (∀ c ∈ pad, c = '=') ∧
      (bs ≠ [] → body ≠ []) := by
  induction bs using base64EncodeChars.induct with
  | case1 a b c rest ih =>
    have ha : a < 256 := h a (by simp)
    have hb : b < 256 := h b (by simp)
    have hc : c < 256 := h c (by simp)
    obtain ⟨body, pad, he, hbody, hpad, _⟩ := ih (fun x hx => h x (by simp [hx]))
    refine ⟨base64Char (a / 4) :: base64Char ((a % 4) * 16 + b / 16) ::
      base64Char ((b % 16) * 4 + c / 64) :: base64Char (c % 64) :: body, pad, ?_, ?_, hpad, ?_⟩
    · rw [base64EncodeChars, he]; rfl
    · intro x hx
      simp only [List.mem_cons] at hx
      rcases hx with rfl | rfl | rfl | rfl | hx
      · exact isB64Char_base64Char _ (by omega)
      · exact isB64Char_base64Char _ (by omega)
      · exact isB64Char_base64Char _ (by omega)
      · exact isB64Char_base64Char _ (by omega)
      · exact hbody x hx
    · intro _; simp
  | case2 a b =>
    have ha : a < 256 := h a (by simp)
    have hb : b < 256 := h b (by simp)
    refine ⟨[base64Char (a / 4), base64Char ((a % 4) * 16 + b / 16),
      base64Char ((b % 16) * 4)], ['='], rfl, ?_, by simp, by simp⟩
    intro x hx
    simp only [List.mem_cons, List.not_mem_nil, or_false] at hx
    rcases hx with rfl | rfl | rfl
    · exact isB64Char_base64Char _ (by omega)
    · exact isB64Char_base64Char _ (by omega)
    · exact isB64Char_base64Char _ (by omega)
  | case3 a =>
    have ha : a < 256 := h a (by simp)
    refine ⟨[base64Char (a / 4), base64Char ((a % 4) * 16)], ['=', '='], rfl, ?_, by simp,
      by simp⟩
    intro x hx
    simp only [List.mem_cons, List.not_mem_nil, or_false] at hx
    rcases hx with rfl | rfl
    · exact isB64Char_base64Char _ (by omega)
    · exact isB64Char_base64Char _ (by omega)
  | case4 => exact ⟨[], [], rfl, by simp, by simp, by simp⟩

/-- A base64 encoding of a non-empty byte list passes the format check. -/
theorem validB64Format_bytesToB64 (bs : List Nat) (h : ∀ b ∈ bs, b < 256)
    (hne : bs ≠ []) : validB64Format (bytesToB64 bs) = true := by
  obtain ⟨body, pad, he, hbody, hpad, hne'⟩ := base64EncodeChars_split bs h
  have hpad' : ∀ c ∈ pad, isB64Char c = false := by
    intro c hc
    rw [hpad c hc]
    decide
  unfold validB64Format bytesToB64
  simp only [he]
  rw [takeWhile_append_all body pad hbody, dropWhile_append_all body pad hbody]
  have h1 : pad.takeWhile isB64Char = [] := by
    cases pad with
    | nil => rfl
    | cons x l =>
      simp [List.takeWhile_cons, hpad' x (by simp)]
  have h2 : pad.dropWhile isB64Char = pad := by
    cases pad with
    | nil => rfl
    | cons x l =>
      simp [List.dropWhile_cons, hpad' x (by simp)]
  rw [h1, h2]
  simp only [List.append_nil, Bool.and_eq_true, List.all_eq_true]
  exact ⟨by simpa using hne' hne, fun c hc => by simpa using hpad c hc⟩

/-- A 16-byte nonce in base64 (24 characters) passes `validateNonce`. -/
theorem validateNonce_bytesToB64 (bs : List Nat) (h : ∀ b ∈ bs, b < 256)
    (hlen : bs.length = 16) : validateNonce (bytesToB64 bs) = true := by
  unfold validateNonce
  have hlen' : (bytesToB64 bs).length = 24 := by
    show (base64EncodeChars bs).length = 24
    rw [base64EncodeChars_length, hlen]
  have hfmt := validB64Format_bytesToB64 bs h (by intro he; rw [he] at hlen; simp at hlen)
  simp [hlen', hfmt]

theorem bytesToB64_ne_empty (bs : List Nat) (hne : bs ≠ []) : bytesToB64 bs ≠ "" := by
  intro he
  have hl : (base64EncodeChars bs).length = 0 := by
    have hd : (bytesToB64 bs).data = ("" : String).data := by rw [he]
    simpa [bytesToB64] using congrArg List.length hd
  rw [base64EncodeChars_length] at hl
  have hpos : 0 < bs.length := List.length_pos.mpr hne
  omega

/-! ## AEAD message codec (client `encryptMessage` / `decryptMessage`)

`crypto.subtle`'s AES-GCM and `TextEncoder`/`TextDecoder` are platform
primitives; they enter the embedding as parameters together with the
functional contracts the Web Crypto and Encoding standards guarantee:
GCM decryption inverts encryption under the same key and IV, the GCM
output is the ciphertext with a 16-byte tag appended, and the text decoder
inverts the encoder. -/

/-- An AES-GCM implementation: `enc key iv plaintext` yields
`ciphertext ‖ tag`; `dec key iv (ciphertext ‖ tag)` yields the plaintext or
fails authentication. -/
structure GcmPrim where
  enc : List Nat → List Nat → List Nat → List Nat
  dec : List Nat → List Nat → List Nat → Option (List Nat)

/-- The contract the Web Crypto API guarantees for AES-GCM. -/
structure GcmCorrect (g : GcmPrim) : Prop where
  roundtrip : ∀ k iv p, g.dec k iv (g.enc k iv p) = some p
  enc_length : ∀ k iv p, (g.enc k iv p).length = p.length + 16
  enc_bytes : ∀ k iv p, (∀ b ∈ p, b < 256) → ∀ b ∈ g.enc k iv p, b < 256

/-- A `TextEncoder`/`TextDecoder` pair. -/
structure TextCodec where
  encode : String → List Nat
  decode : List Nat → String

/-- The contract of UTF-8 text encoding: decoding inverts encoding and the
encoder emits bytes. -/
structure TextCodecCorrect (tc : TextCodec) : Prop where
  roundtrip : ∀ s, tc.decode (tc.encode s) = s
  encode_bytes : ∀ s, ∀ b ∈ tc.encode s, b < 256

/-- The wire form of an encrypted message (interface `EncryptedMessage`).
All six fields are structurally present, exactly as in the TypeScript type. -/
structure EncryptedMessage where
  ciphertext : String
  iv : String
  tag : String
  timestamp : Int
  sequenceNumber : Int
  nonce : String

/-- `getSequenceNumber`: read the per-conversation counter (0 when absent),
increment, store back. Counters only ever hold values the code wrote, so
they are naturals. -/
def getSequenceNumber (conversationId : String) (counters : List (String × Nat)) :
    Nat × List (String × Nat) :=
  let current := (alistGet counters conversationId).getD 0
  let next := current + 1
  (next, alistSet counters conversationId next)

/-- `encryptMessage` from the client crypto module. The random 12-byte IV,
the random 16-byte nonce and `Date.now()` are inputs here because the code
obtains them from the platform. -/
def encryptMessage (g : GcmPrim) (tc : TextCodec) (message : String)
    (sessionKey : List Nat) (conversationId : String)
    (ivBytes nonceBytes : List Nat) (now : Int) (counters : List (String × Nat)) :
    Except String (EncryptedMessage × List (String × Nat)) :=
  let messageBytes := tc.encode message
  let nonce := bytesToB64 nonceBytes
  let sq := getSequenceNumber conversationId counters
  if validateNonce nonce then
    let encrypted := g.enc sessionKey ivBytes messageBytes
    let tag := encrypted.drop (encrypted.length - 16)
    let ciphertext := encrypted.take (encrypted.length - 16)
    .ok ({ ciphertext := bytesToB64 ciphertext, iv := bytesToB64 ivBytes,
           tag := bytesToB64 tag, timestamp := now,
           sequenceNumber := (sq.1 : Int), nonce := nonce }, sq.2)
  else
    .error "Invalid nonce generated"

/-- `decryptMessage` from the client crypto module. The presence test on the
replay triple is JavaScript truthiness (`!x`), so a zero timestamp or
sequence number and an empty nonce count as missing. The timestamp age
checks in the source only emit console warnings and do not affect the
result, so they do not appear here. -/
def decryptMessage (g : GcmPrim) (tc : TextCodec) (encrypted : EncryptedMessage)
    (sessionKey : List Nat) : Except String String :=
  if encrypted.nonce = "" ∨ encrypted.timestamp = 0 ∨ encrypted.sequenceNumber = 0 then
    .error "Missing replay protection fields"
  else if validateNonce encrypted.nonce then
    match b64ToBytes encrypted.iv, b64ToBytes encrypted.ciphertext, b64ToBytes encrypted.tag with
    | some iv, some ciphertext, some tag =>
        match g.dec sessionKey iv (ciphertext ++ tag) with
        | some decrypted => .ok (tc.decode decrypted)
        | none => .error "Failed to decrypt message"
    | _, _, _ => .error "InvalidCharacterError"
  else
    .error "Invalid nonce format"

theorem b64ToBytes_bytesToB64 (bs : List Nat) (h : ∀ b ∈ bs, b < 256) :
    b64ToBytes (bytesToB64 bs) = some bs :=
  base64DecodeChars_encodeChars bs h

/-! ### Concrete instances of the platform contracts

Used to evaluate the parameterised definitions on closed inputs. `gcmModel`
appends a 16-byte all-zero tag and checks it on decryption; `codecModel`
spreads each character over three bytes. Both satisfy the platform
contracts. -/

/-- A functional model of an AEAD: tag is 16 zero bytes, checked on
decryption. -/
def gcmModel : GcmPrim where
  enc := fun _ _ p => p ++ List.replicate 16 0
  dec := fun _ _ c =>
    if 16 ≤ c.length ∧ c.drop (c.length - 16) = List.replicate 16 0 then
      some (c.take (c.length - 16))
    else none

theorem gcmModel_correct : GcmCorrect gcmModel := by
  constructor
  · intro k iv p
    simp only [gcmModel]
    have hsub : (p ++ List.replicate 16 (0 : Nat)).length - 16 = p.length := by simp
    rw [if_pos ⟨by simp, by rw [hsub, List.drop_left]⟩, hsub, List.take_left]
  · intro k iv p
    simp [gcmModel]
  · intro k iv p hp b hb
    simp only [gcmModel] at hb
    rcases List.mem_append.mp hb with h | h
    · exact hp b h
    · have := List.eq_of_mem_replicate h
      omega

/-- Decoder half of `codecModel`: three bytes back to one character. -/
def codecModelDecode : List Nat → List Char
  | b0 :: b1 :: b2 :: rest => Char.ofNat (b0 * 65536 + b1 * 256 + b2) :: codecModelDecode rest
  | _ => []

/-- A functional model of a text codec: each character as three base-256
digits. -/
def codecModel : TextCodec where
  encode := fun s => s.data.flatMap (fun c => [c.toNat / 65536, c.toNat / 256 % 256, c.toNat % 256])
  decode := fun bs => ⟨codecModelDecode bs⟩

theorem char_toNat_lt (c : Char) : c.toNat < 1114112 := by
  rcases c.valid with h | ⟨_, h2⟩
  · exact Nat.lt_trans (by exact_mod_cast h) (by norm_num)
  · exact_mod_cast h2

theorem codecModel_correct : TextCodecCorrect codecModel := by
  constructor
  · intro s
    obtain ⟨l⟩ := s
    simp only [codecModel]
    congr 1
    show codecModelDecode (l.flatMap _) = l
    induction l with
    | nil => rfl
    | cons c cs ih =>
      have hc := char_toNat_lt c
      simp only [List.flatMap_cons, List.cons_append, List.nil_append]
      rw [codecModelDecode]
      have harith : c.toNat / 65536 * 65536 + c.toNat / 256 % 256 * 256 + c.toNat % 256
          = c.toNat := by omega
      rw [harith, Char.ofNat_toNat, ih]
  · intro s b hb
    simp only [codecModel, List.mem_flatMap] at hb
    obtain ⟨c, _, hc⟩ := hb
    have := char_toNat_lt c
    simp only [List.mem_cons, List.not_mem_nil, or_false] at hc
    rcases hc with rfl | rfl | rfl
    · omega
    · omega
    · omega

/-- C3 --- AEAD round-trip: for every AES-GCM implementation and text codec
meeting their platform contracts, every plaintext string, 256-bit session
key and conversation id, and every run of the platform inputs the code
draws itself (a 12-byte random IV, a 16-byte random nonce, a non-zero
`Date.now()`, any sequence-counter state), `decryptMessage` applied to the
record produced by `encryptMessage` returns the original plaintext. -/
theorem aead_roundtrip (g : GcmPrim) (tc : TextCodec) (hg : GcmCorrect g)
    (htc : TextCodecCorrect tc) (message : String) (sessionKey : List Nat)
    (conversationId : String) (ivBytes nonceBytes : List Nat)
    (hiv : ∀ b ∈ ivBytes, b < 256) (hnl : nonceBytes.length = 16)
    (hnb : ∀ b ∈ nonceBytes, b < 256) (now : Int) (hnow : now ≠ 0)
    (counters : List (String × Nat)) :
    ∃ em counters',
      encryptMessage g tc message sessionKey conversationId ivBytes nonceBytes now
        counters = .ok (em, counters') ∧
      decryptMessage g tc em sessionKey = .ok message := by
  have hnonceNe : nonceBytes ≠ [] := by
    intro he; rw [he] at hnl; simp at hnl
  have hv : validateNonce (bytesToB64 nonceBytes) = true :=
    validateNonce_bytesToB64 nonceBytes hnb hnl
  have hmb : ∀ b ∈ tc.encode message, b < 256 := htc.encode_bytes message
  have hctb : ∀ b ∈ g.enc sessionKey ivBytes (tc.encode message), b < 256 :=
    hg.enc_bytes _ _ _ hmb
  unfold encryptMessage
  rw [if_pos hv]
  refine ⟨_, _, rfl, ?_⟩
  unfold decryptMessage
  rw [if_neg ?_]
  · rw [if_pos hv]
    set encd := g.enc sessionKey ivBytes (tc.encode message) with hencd
    have hct : b64ToBytes (bytesToB64 (encd.take (encd.length - 16))) =
        some (encd.take (encd.length - 16)) :=
      b64ToBytes_bytesToB64 _ (fun b hb => hctb b (List.take_subset _ _ hb))
    have htag : b64ToBytes (bytesToB64 (encd.drop (encd.length - 16))) =
        some (encd.drop (encd.length - 16)) :=
      b64ToBytes_bytesToB64 _ (fun b hb => hctb b (List.drop_subset _ _ hb))
    have hiv' : b64ToBytes (bytesToB64 ivBytes) = some ivBytes :=
      b64ToBytes_bytesToB64 _ hiv
    rw [hiv', hct, htag]
    dsimp only
    rw [List.take_append_drop, hencd, hg.roundtrip]
    dsimp only
    rw [htc.roundtrip]
  · push_neg
    refine ⟨bytesToB64_ne_empty nonceBytes hnonceNe, hnow, ?_⟩
    show ((((getSequenceNumber conversationId counters).1 : Nat) : Int) ≠ 0)
    have : 1 ≤ (getSequenceNumber conversationId counters).1 := Nat.le_add_left 1 _
    omega

/-- C3 witness: concrete run with the model primitives. -/
theorem aead_roundtrip_witness :
    (∀ b ∈ List.replicate 12 0, b < 256) ∧ (List.replicate 16 0).length = 16 ∧
    (1000 : Int) ≠ 0 ∧
    ∃ em counters',
      encryptMessage gcmModel codecModel "hi" [] "a-b" (List.replicate 12 0)
        (List.replicate 16 0) 1000 [] = .ok (em, counters') ∧
      decryptMessage gcmModel codecModel em [] = .ok "hi" :=
  ⟨fun b hb => by simpa using (List.eq_of_mem_replicate hb) ▸ (by omega : (0 : Nat) < 256),
   by simp, by decide,
   aead_roundtrip gcmModel codecModel gcmModel_correct codecModel_correct "hi" [] "a-b"
     (List.replicate 12 0) (List.replicate 16 0)
     (fun b hb => by have := List.eq_of_mem_replicate hb; omega)
     (by simp) (fun b hb => by have := List.eq_of_mem_replicate hb; omega)
     1000 (by decide) []⟩

/-! ## Session-key derivation (client `deriveSessionKey`)

The HKDF-SHA-256 invocation is deterministic in its inputs, so the derived
session key is represented by the exact parameter triple the code passes to
`crypto.subtle.deriveKey`: the input keying material (the raw ECDH shared
secret), the salt, and the `info` bytes. Two calls produce the same key
exactly when they produce the same triple. -/

/-- The parameters `deriveSessionKey` feeds to HKDF-SHA-256; they determine
the derived 256-bit AES-GCM key. -/
structure HkdfParams where
  ikm : List Nat
  salt : List Nat
  info : String
deriving DecidableEq

/-- `[a, b].sort()` for two strings (JavaScript's default lexicographic
comparator). -/
def sortPair (a b : String) : String × String :=
  if a ≤ b then (a, b) else (b, a)

/-- `deriveSessionKey` from the client key-exchange module: when
`otherUserId` is passed (and truthy), `info` is
`"Cipherlink-Session-Key-" ++ sortedIds[0] ++ "-" ++ sortedIds[1]`; the
`otherPublicKey` argument is deliberately not used; the salt is 32 zero
bytes. With a missing or empty `otherUserId` the code takes a fallback
branch using only `myUserId`. -/
def deriveSessionKey (sharedSecret : List Nat) (otherPublicKey : String)
    (myUserId : String) (otherUserId : Option String) : HkdfParams :=
  let info :=
    if truthyStr otherUserId then
      let sorted := sortPair myUserId (otherUserId.getD "")
      "Cipherlink-Session-Key-" ++ sorted.1 ++ "-" ++ sorted.2
    else
      "Cipherlink-Session-Key-" ++ myUserId
  { ikm := sharedSecret, salt := List.replicate 32 0, info := info }

theorem sortPair_comm (a b : String) : sortPair a b = sortPair b a := by
  unfold sortPair
  by_cases hab : a ≤ b
  · by_cases hba : b ≤ a
    · have he : a = b := le_antisymm hab hba
      subst he
      rfl
    · rw [if_pos hab, if_neg hba]
  · have hba : b ≤ a := (le_total a b).resolve_left hab
    rw [if_neg hab, if_pos hba]

/-! ## Canonical signed handshake payloads (client) -/

/-- A JSON value as it appears in the five-field handshake objects. -/
inductive JVal
  | str (s : String)
  | num (n : Int)

/-- Hexadecimal digit (lower case), as used by `JSON.stringify` escapes. -/
def hexDigit (n : Nat) : Char := "0123456789abcdef".data.getD n '0'

/-- `JSON.stringify`'s escaping of a single character inside a string
literal. -/
def jsonEscapeChar (c : Char) : List Char :=
  if c = '"' then ['\\', '"']
  else if c = '\\' then ['\\', '\\']
  else if c = '\x08' then ['\\', 'b']
  else if c = '\t' then ['\\', 't']
  else if c = '\n' then ['\\', 'n']
  else if c = '\x0c' then ['\\', 'f']
  else if c = '\r' then ['\\', 'r']
  else if c.toNat < 32 then
    ['\\', 'u', '0', '0', hexDigit (c.toNat / 16), hexDigit (c.toNat % 16)]
  else [c]

/-- A JSON string literal: quote, escaped characters, quote. -/
def jsonQuote (s : String) : String :=
  "\"" ++ ⟨s.data.flatMap jsonEscapeChar⟩ ++ "\""

/-- Rendering of a JSON value. -/
def jvalRender : JVal → String
  | .str s => jsonQuote s
  | .num n => toString n

/-- `JSON.stringify` on an object literal with the given fields in the given
order: no whitespace anywhere (the default of the standard stringifier). -/
def jsonStringifyObj (fields : List (String × JVal)) : String :=
  "\x7b" ++ String.intercalate ","
    (fields.map (fun p => jsonQuote p.1 ++ ":" ++ jvalRender p.2)) ++ "\x7d"

/-- Modelled from the spec: the layout §6.1 describes in words --- the same
five fields but with a single-space separator after each colon and comma.
To be compared against `jsonStringifyObj`, the layout the code produces. -/
def jsonStringifySpacedSpec (fields : List (String × JVal)) : String :=
  "\x7b" ++ String.intercalate ", "
    (fields.map (fun p => jsonQuote p.1 ++ ": " ++ jvalRender p.2)) ++ "\x7d"

/-- The signed bytes built by `initiateKeyExchange` (client key-exchange
module): `JSON.stringify` of the object literal with fields `type` (the
literal `'initiate'`), `fromUserId`, `toUserId`, `publicKey`, `timestamp`,
in that source order. -/
def initiateMessageData (fromUserId toUserId publicKey : String) (timestamp : Int) : String :=
  jsonStringifyObj [("type", .str "initiate"), ("fromUserId", .str fromUserId),
    ("toUserId", .str toUserId), ("publicKey", .str publicKey),
    ("timestamp", .num timestamp)]

/-- The bytes `handleKeyExchangeResponse` (initiator side) verifies the
responder's signature against, rebuilt from the received message's fields in
the same source order. -/
def responseVerifyData (type_ fromUserId toUserId publicKey : String) (timestamp : Int) : String :=
  jsonStringifyObj [("type", .str type_), ("fromUserId", .str fromUserId),
    ("toUserId", .str toUserId), ("publicKey", .str publicKey),
    ("timestamp", .num timestamp)]

/-- The bytes the responder path of `establishSession` signs for its
RESPOND message: field `type` is the literal `'response'`. -/
def responderResponseData (fromUserId toUserId publicKey : String) (timestamp : Int) : String :=
  jsonStringifyObj [("type", .str "response"), ("fromUserId", .str fromUserId),
    ("toUserId", .str toUserId), ("publicKey", .str publicKey),
    ("timestamp", .num timestamp)]

/-- The bytes the responder path of `establishSession` verifies the
initiator's original signature against: field `type` is the literal
`'initiate'`, the other four fields are the exchange's stored values. -/
def responderVerifyOriginalData (fromUserId toUserId publicKey : String) (timestamp : Int) : String :=
  jsonStringifyObj [("type", .str "initiate"), ("fromUserId", .str fromUserId),
    ("toUserId", .str toUserId), ("publicKey", .str publicKey),
    ("timestamp", .num timestamp)]

/-! ## Persistent message store (relay, `models/Message.js`) -/

/-- 5 minutes in milliseconds. -/
def MAX_NONCE_AGE : Int := 5 * 60 * 1000


/-- A stored message row (the fields the replay layer reads and writes). -/
structure DbMessage where
  senderId : String
  recipientId : String
  ciphertext : String
  iv : String
  tag : String
  timestamp : Int
  sequenceNumber : Int
  nonce : String
deriving DecidableEq

/-- The `$or` query over both directions of a conversation. -/
def conversationMsgs (db : List DbMessage) (s r : String) : List DbMessage :=
  db.filter (fun m => (m.senderId = s ∧ m.recipientId = r) ∨
                      (m.senderId = r ∧ m.recipientId = s))

/-- `findOne({$or:[{senderId,recipientId},{swapped}]}).sort({sequenceNumber:-1})`:
the greatest sequence number stored for the conversation, if any. -/
def dbLastSeq (db : List DbMessage) (s r : String) : Option Int :=
  (conversationMsgs db s r).foldl
    (fun acc m => match acc with
      | none => some m.sequenceNumber
      | some v => some (max v m.sequenceNumber)) none

theorem conversationMsgs_comm (db : List DbMessage) (s r : String) :
    conversationMsgs db s r = conversationMsgs db r s := by
  unfold conversationMsgs
  apply List.filter_congr
  intro m _
  exact decide_eq_decide.mpr (by tauto)

theorem dbLastSeq_comm (db : List DbMessage) (s r : String) :
    dbLastSeq db s r = dbLastSeq db r s := by
  unfold dbLastSeq
  rw [conversationMsgs_comm]

/-- The mongoose schema validators on a `Message` document: every `required`
string non-empty, client timestamp within `[now - 5 min, now + 1 min]`,
sequence number a positive integer (`min: 1`), nonce at least 16 characters
of base64 shape. -/
def validMessage (m : DbMessage) (now : Int) : Bool :=
  m.senderId ≠ "" && m.recipientId ≠ "" && m.ciphertext ≠ "" && m.iv ≠ "" && m.tag ≠ "" &&
  (-60000 ≤ now - m.timestamp && now - m.timestamp ≤ MAX_NONCE_AGE) &&
  (0 < m.sequenceNumber) &&
  (m.nonce ≠ "" && 16 ≤ m.nonce.length && validB64Format m.nonce)

/-- How an insert can fail: a mongoose `ValidationError` (schema validators
or the pre-save monotonicity hook) or a MongoDB duplicate-key error
(`error.code === 11000`) from the unique index on `nonce`. -/
inductive SaveErr
  | validation
  | dupKey
deriving DecidableEq

/-- `message.save()`: schema validation runs first, then the pre-save hook
checking sequence monotonicity for the conversation (a `ValidationError`,
not a duplicate-key error), then the insert against the unique `nonce`
index (failure surfaces as code 11000). -/
def messageSave (db : List DbMessage) (m : DbMessage) (now : Int) :
    Except SaveErr (List DbMessage) :=
  if validMessage m now then
    if (dbLastSeq db m.senderId m.recipientId).any
        (fun v => decide (m.sequenceNumber ≤ v)) then
      .error .validation
    else if db.any (fun m0 => m0.nonce = m.nonce) then
      .error .dupKey
    else
      .ok (db ++ [m])
  else
    .error .validation

/-- The `/messages/send` handler's observable responses. -/
inductive SendResult
  | created
  | badRequestMissing
  | badRequestDuplicateNonce
  | serverError
deriving DecidableEq

/-- The `/messages/send` handler after authentication and the replay gate:
its own truthiness check on five body fields, then `message.save()`; the
catch block maps a duplicate-key error (code 11000) to
400 `duplicate-nonce` and everything else to a 500. -/
def handleSend (db : List DbMessage) (senderId recipientId ciphertext iv tag nonce : String)
    (timestamp sequenceNumber : Int) (now : Int) : SendResult × List DbMessage :=
  if recipientId = "" ∨ ciphertext = "" ∨ iv = "" ∨ tag = "" ∨ nonce = "" then
    (.badRequestMissing, db)
  else
    match messageSave db
        ⟨senderId, recipientId, ciphertext, iv, tag, timestamp, sequenceNumber, nonce⟩ now with
    | .ok db' => (.created, db')
    | .error .dupKey => (.badRequestDuplicateNonce, db)
    | .error .validation => (.serverError, db)

/-! ## Replay-protection middleware (relay, `middleware/replayProtection.js`) -/

/-- What the middleware stores in the nonce cache on acceptance. -/
structure CacheEntry where
  timestamp : Int
  userId : String
  recipientId : Option String
  sequenceNumber : Int
  acceptedAt : Int
deriving DecidableEq

/-- The middleware's two in-memory maps. -/
structure GateState where
  nonceCache : List (String × CacheEntry)
  sequenceTracking : List (String × Int)
deriving DecidableEq

/-- The replay-relevant fields of a `/messages/send` request body; each may
be absent. The sender id comes from the authentication middleware, not the
body. -/
structure SendBody where
  nonce : Option String
  timestamp : Option Int
  sequenceNumber : Option Int
  recipientId : Option String

/-- The rejection kinds of the gate's 400 responses, in source order. -/
inductive RejectKind
  | missingFields
  | fromFuture
  | tooOld
  | duplicateNonce
  | invalidSequence
deriving DecidableEq

/-- Whether the middleware called `next()` or answered 400 itself. -/
inductive GateResult
  | accepted
  | rejected (kind : RejectKind)
deriving DecidableEq

/-- The `replayProtection` middleware. Presence is the source's
`!nonce || !timestamp || sequenceNumber === undefined`; the timestamp window
is `now - timestamp` against `-60000` and `MAX_NONCE_AGE`; the nonce must not
be cached; when both the authenticated sender and the body's `recipientId`
are truthy, the last sequence number is read from the in-memory tracker
under `senderId-recipientId` (on a miss it is fetched from the store and
cached under both key orders) and the request's sequence number must
strictly exceed it; on acceptance the tracker (both key orders) and the
nonce cache are updated. -/
def replayProtection (db : List DbMessage) (senderId : String) (body : SendBody)
    (now : Int) (st : GateState) : GateResult × GateState :=
  match body.nonce, body.timestamp, body.sequenceNumber with
  | some nonce, some timestamp, some sequenceNumber =>
    if nonce = "" ∨ timestamp = 0 then (.rejected .missingFields, st)
    else
      let timeDiff := now - timestamp
      if timeDiff < -60000 then (.rejected .fromFuture, st)
      else if timeDiff > MAX_NONCE_AGE then (.rejected .tooOld, st)
      else if (alistGet st.nonceCache nonce).isSome then (.rejected .duplicateNonce, st)
      else if senderId ≠ "" ∧ body.recipientId.getD "" ≠ "" then
        let recipientId := body.recipientId.getD ""
        let key1 := senderId ++ "-" ++ recipientId
        let key2 := recipientId ++ "-" ++ senderId
        let fetched : Int × GateState :=
          match alistGet st.sequenceTracking key1 with
          | some v => (v, st)
          | none =>
            let v := (dbLastSeq db senderId recipientId).getD 0
            let trCached := alistSet (alistSet st.sequenceTracking key1 v) key2 v
            (v, { st with sequenceTracking := trCached })
        if sequenceNumber ≤ fetched.1 then (.rejected .invalidSequence, fetched.2)
        else
          let trNew := alistSet (alistSet fetched.2.sequenceTracking key1 sequenceNumber) key2 sequenceNumber
          let st2 := { fetched.2 with sequenceTracking := trNew }
          let entry : CacheEntry := ⟨timestamp, senderId, body.recipientId, sequenceNumber, now⟩
          (.accepted, { st2 with nonceCache := alistSet st2.nonceCache nonce entry })
      else
        let entry : CacheEntry := ⟨timestamp, senderId, body.recipientId, sequenceNumber, now⟩
        (.accepted, { st with nonceCache := alistSet st.nonceCache nonce entry })
  | _, _, _ => (.rejected .missingFields, st)

/-- The background sweep (`setInterval`, every 60 s): deletes every cache
entry whose stored message `timestamp` is more than `MAX_NONCE_AGE` in the
past --- the comparison in the source reads `data.timestamp`, not
`data.acceptedAt`. -/
def nonceSweep (cache : List (String × CacheEntry)) (now : Int) :
    List (String × CacheEntry) :=
  cache.filter (fun p => ¬ (now - p.2.timestamp > MAX_NONCE_AGE))

/-- The gate's notion of the last-seen sequence number of a conversation,
as the spec describes it: the in-memory tracker first, the persistent store
on a miss, zero when neither knows the conversation. -/
def effectiveLastSeen (db : List DbMessage) (st : GateState)
    (senderId recipientId : String) : Int :=
  (alistGet st.sequenceTracking (senderId ++ "-" ++ recipientId)).getD
    ((dbLastSeq db senderId recipientId).getD 0)

/-! ## Key-exchange confirm route (relay, `routes/keyExchange.js`) -/

/-- A relay-side pending exchange. The response fields are present for
fidelity; the `/confirm` handler reads only the two peer ids and
`confirmedBy` (which starts out absent, i.e. empty). -/
structure PendingExchange where
  fromUserId : String
  toUserId : String
  publicKey : String
  signature : String
  timestamp : Int
  createdAt : Int
  responsePublicKey : Option String
  responseSignature : Option String
  responseTimestamp : Option Int
  respondedBy : Option String
  confirmedBy : List String
deriving DecidableEq

/-- The `/key-exchange/confirm` handler's observable responses. -/
inductive ConfirmStatus
  | badRequest
  | notFound
  | confirmed (bothConfirmed : Bool)
deriving DecidableEq

/-- The `POST /key-exchange/confirm` handler: after the truthiness check on
`exchangeId` and `confirmationHash` and the table lookup, the requester (any
authenticated user) is added to `confirmedBy` if not already there;
`bothConfirmed` is `confirmedBy.length >= 2` or both peers being contained;
when it holds the exchange is deleted. -/
def confirmExchange (table : List (String × PendingExchange)) (userId : String)
    (exchangeId confirmationHash : Option String) :
    ConfirmStatus × List (String × PendingExchange) :=
  if truthyStr exchangeId ∧ truthyStr confirmationHash then
    let eid := exchangeId.getD ""
    match alistGet table eid with
    | none => (.notFound, table)
    | some ex =>
      let confirmedBy :=
        if userId ∈ ex.confirmedBy then ex.confirmedBy else ex.confirmedBy ++ [userId]
      if 2 ≤ confirmedBy.length ∨
          (ex.fromUserId ∈ confirmedBy ∧ ex.toUserId ∈ confirmedBy) then
        (.confirmed true, alistRemove table eid)
      else
        (.confirmed false, alistSet table eid { ex with confirmedBy := confirmedBy })
  else
    (.badRequest, table)

/-! ## Claims -/

/-- C1 --- Session-key symmetry: for every ECDH shared secret `Z` and
distinct (non-empty, as Mongo user ids are) user ids `A`, `B`, the HKDF
parameters `deriveSessionKey` produces for `(myUserId = A, otherUserId = B)`
equal those for `(myUserId = B, otherUserId = A)` --- hence the derived keys
agree --- with a 32-zero-byte salt and the info string
`"Cipherlink-Session-Key-"` followed by the two ids in sorted order; the
ephemeral public keys (`pubA`, `pubB`, arbitrary and different on the two
sides) do not influence the result. -/
theorem session_key_symmetry (Z : List Nat) (pubA pubB A B : String)
    (hA : A ≠ "") (hB : B ≠ "") (hAB : A ≠ B) :
    deriveSessionKey Z pubA A (some B) = deriveSessionKey Z pubB B (some A) ∧
    (deriveSessionKey Z pubA A (some B)).salt = List.replicate 32 0 ∧
    (deriveSessionKey Z pubA A (some B)).info =
      "Cipherlink-Session-Key-" ++ (sortPair A B).1 ++ "-" ++ (sortPair A B).2 := by
  have key : ∀ (x y pub : String), y ≠ "" →
      deriveSessionKey Z pub x (some y) =
        ⟨Z, List.replicate 32 0,
         "Cipherlink-Session-Key-" ++ (sortPair x y).1 ++ "-" ++ (sortPair x y).2⟩ := by
    intro x y pub hy
    have ht : truthyStr (some y) = true := by simp [truthyStr, hy]
    unfold deriveSessionKey
    rw [if_pos ht]
    rfl
  rw [key A B pubA hB, key B A pubB hA, sortPair_comm B A]
  exact ⟨rfl, rfl, rfl⟩

/-- C1 witness: a concrete run of the symmetry theorem. -/
theorem session_key_symmetry_witness :
    (("u1" : String) ≠ "" ∧ ("u2" : String) ≠ "" ∧ ("u1" : String) ≠ "u2") ∧
    (deriveSessionKey [1, 2] "pubX" "u1" (some "u2") =
       deriveSessionKey [1, 2] "pubY" "u2" (some "u1") ∧
     (deriveSessionKey [1, 2] "pubX" "u1" (some "u2")).salt = List.replicate 32 0 ∧
     (deriveSessionKey [1, 2] "pubX" "u1" (some "u2")).info =
       "Cipherlink-Session-Key-" ++ (sortPair "u1" "u2").1 ++ "-" ++
         (sortPair "u1" "u2").2) :=
  ⟨⟨by decide, by decide, by decide⟩,
   session_key_symmetry [1, 2] "pubX" "pubY" "u1" "u2" (by decide) (by decide) (by decide)⟩

/-- C4 counterexample: the claim's byte layout --- a single space after each
colon and comma --- does not match what the code signs. At the concrete
five-field input below, `JSON.stringify` (the code) produces the compact
form with no whitespace at all, which differs from the spec-worded
single-space layout. -/
theorem canonical_form_counterexample :
    initiateMessageData "a" "b" "p" 5 =
      "\x7b\"type\":\"initiate\",\"fromUserId\":\"a\",\"toUserId\":\"b\",\"publicKey\":\"p\",\"timestamp\":5\x7d" ∧
    initiateMessageData "a" "b" "p" 5 ≠
      jsonStringifySpacedSpec [("type", .str "initiate"), ("fromUserId", .str "a"),
        ("toUserId", .str "b"), ("publicKey", .str "p"), ("timestamp", .num 5)] := by
  exact ⟨rfl, by decide⟩

theorem string_eq_of_data_eq (s t : String) (h : s.data = t.data) : s = t := by
  cases s; cases t; exact congrArg String.mk h

theorem flatMap_jsonEscape_id (l : List Char) (h : ∀ c ∈ l, jsonEscapeChar c = [c]) :
    l.flatMap jsonEscapeChar = l := by
  induction l with
  | nil => rfl
  | cons c cs ih =>
    rw [List.flatMap_cons, h c (by simp), ih (fun x hx => h x (by simp [hx]))]
    rfl

/-- For strings whose characters need no JSON escaping, quoting just wraps
them in quotes. -/
theorem jsonQuote_plain (s : String) (hs : ∀ c ∈ s.data, jsonEscapeChar c = [c]) :
    jsonQuote s = "\"" ++ s ++ "\"" := by
  unfold jsonQuote
  rw [flatMap_jsonEscape_id s.data hs]

/-- C4 amended --- canonical signed message form: what is signed and
verified is `JSON.stringify` of an object with exactly the five fields
`type`, `fromUserId`, `toUserId`, `publicKey`, `timestamp` in that order
and **no** whitespace (the default of a standard JSON stringifier, not the
single-space layout the spec describes); the initiator's signed bytes are
byte-for-byte the bytes the responder verifies, and the responder's signed
RESPOND bytes are the bytes the initiator verifies. Stated for field values
that need no JSON escaping (user ids and base64 keys never do). -/
theorem canonical_form_amended (f t pk : String) (ts : Int)
    (hf : ∀ c ∈ f.data, jsonEscapeChar c = [c])
    (ht : ∀ c ∈ t.data, jsonEscapeChar c = [c])
    (hpk : ∀ c ∈ pk.data, jsonEscapeChar c = [c]) :
    initiateMessageData f t pk ts = responderVerifyOriginalData f t pk ts ∧
    responderResponseData f t pk ts = responseVerifyData "response" f t pk ts ∧
    initiateMessageData f t pk ts =
      "\x7b\"type\":\"initiate\",\"fromUserId\":\"" ++ f ++ "\",\"toUserId\":\"" ++ t ++
        "\",\"publicKey\":\"" ++ pk ++ "\",\"timestamp\":" ++ toString ts ++ "\x7d" ∧
    responderResponseData f t pk ts =
      "\x7b\"type\":\"response\",\"fromUserId\":\"" ++ f ++ "\",\"toUserId\":\"" ++ t ++
        "\",\"publicKey\":\"" ++ pk ++ "\",\"timestamp\":" ++ toString ts ++ "\x7d" := by
  have htype : jsonQuote "type" = "\"type\"" := rfl
  have hfrom : jsonQuote "fromUserId" = "\"fromUserId\"" := rfl
  have hto : jsonQuote "toUserId" = "\"toUserId\"" := rfl
  have hpkk : jsonQuote "publicKey" = "\"publicKey\"" := rfl
  have htsk : jsonQuote "timestamp" = "\"timestamp\"" := rfl
  have hinit : jsonQuote "initiate" = "\"initiate\"" := rfl
  have hresp : jsonQuote "response" = "\"response\"" := rfl
  refine ⟨rfl, rfl, ?_, ?_⟩
  · unfold initiateMessageData jsonStringifyObj jvalRender
    simp only [List.map_cons, List.map_nil]
    rw [jsonQuote_plain f hf, jsonQuote_plain t ht, jsonQuote_plain pk hpk,
      htype, hfrom, hto, hpkk, htsk, hinit]
    simp only [String.intercalate, String.intercalate.go, List.foldl]
    apply string_eq_of_data_eq
    simp
  · unfold responderResponseData jsonStringifyObj jvalRender
    simp only [List.map_cons, List.map_nil]
    rw [jsonQuote_plain f hf, jsonQuote_plain t ht, jsonQuote_plain pk hpk,
      htype, hfrom, hto, hpkk, htsk, hresp]
    simp only [String.intercalate, String.intercalate.go, List.foldl]
    apply string_eq_of_data_eq
    simp

/-- C4 amended witness: the theorem at concrete escape-free field values. -/
theorem canonical_form_amended_witness :
    ((∀ c ∈ ("a" : String).data, jsonEscapeChar c = [c]) ∧
     (∀ c ∈ ("b" : String).data, jsonEscapeChar c = [c]) ∧
     (∀ c ∈ ("p" : String).data, jsonEscapeChar c = [c])) ∧
    (initiateMessageData "a" "b" "p" 5 = responderVerifyOriginalData "a" "b" "p" 5 ∧
     responderResponseData "a" "b" "p" 5 = responseVerifyData "response" "a" "b" "p" 5 ∧
     initiateMessageData "a" "b" "p" 5 =
       "\x7b\"type\":\"initiate\",\"fromUserId\":\"" ++ "a" ++ "\",\"toUserId\":\"" ++ "b" ++
         "\",\"publicKey\":\"" ++ "p" ++ "\",\"timestamp\":" ++ toString (5 : Int) ++ "\x7d" ∧
     responderResponseData "a" "b" "p" 5 =
       "\x7b\"type\":\"response\",\"fromUserId\":\"" ++ "a" ++ "\",\"toUserId\":\"" ++ "b" ++
         "\",\"publicKey\":\"" ++ "p" ++ "\",\"timestamp\":" ++ toString (5 : Int) ++ "\x7d") :=
  ⟨⟨by decide, by decide, by decide⟩,
   canonical_form_amended "a" "b" "p" 5 (by decide) (by decide) (by decide)⟩

/-! ### Path lemmas for the replay gate

One equation per control-flow path of `replayProtection`, used by the gate
claims below. -/

theorem rp_missing_none (db : List DbMessage) (senderId : String) (body : SendBody)
    (now : Int) (st : GateState)
    (h : body.nonce = none ∨ body.timestamp = none ∨ body.sequenceNumber = none) :
    replayProtection db senderId body now st = (.rejected .missingFields, st) := by
  obtain ⟨bn, bt, bs, br⟩ := body
  simp only at h
  rcases h with h | h | h
  · subst h; cases bt <;> cases bs <;> rfl
  · subst h; cases bn <;> cases bs <;> rfl
  · subst h; cases bn <;> cases bt <;> rfl

theorem rp_missing_falsy (db : List DbMessage) (senderId : String) (n : String)
    (t s : Int) (br : Option String) (now : Int) (st : GateState)
    (h : n = "" ∨ t = 0) :
    replayProtection db senderId ⟨some n, some t, some s, br⟩ now st =
      (.rejected .missingFields, st) := by
  unfold replayProtection
  dsimp only
  rw [if_pos h]

theorem rp_future (db : List DbMessage) (senderId : String) (n : String)
    (t s : Int) (br : Option String) (now : Int) (st : GateState)
    (h0 : ¬ (n = "" ∨ t = 0)) (h1 : now - t < -60000) :
    replayProtection db senderId ⟨some n, some t, some s, br⟩ now st =
      (.rejected .fromFuture, st) := by
  unfold replayProtection
  dsimp only
  rw [if_neg h0, if_pos h1]

theorem rp_old (db : List DbMessage) (senderId : String) (n : String)
    (t s : Int) (br : Option String) (now : Int) (st : GateState)
    (h0 : ¬ (n = "" ∨ t = 0)) (h1 : ¬ (now - t < -60000)) (h2 : now - t > MAX_NONCE_AGE) :
    replayProtection db senderId ⟨some n, some t, some s, br⟩ now st =
      (.rejected .tooOld, st) := by
  unfold replayProtection
  dsimp only
  rw [if_neg h0, if_neg h1, if_pos h2]

theorem rp_dup (db : List DbMessage) (senderId : String) (n : String)
    (t s : Int) (br : Option String) (now : Int) (st : GateState)
    (h0 : ¬ (n = "" ∨ t = 0)) (h1 : ¬ (now - t < -60000)) (h2 : ¬ (now - t > MAX_NONCE_AGE))
    (h3 : (alistGet st.nonceCache n).isSome = true) :
    replayProtection db senderId ⟨some n, some t, some s, br⟩ now st =
      (.rejected .duplicateNonce, st) := by
  unfold replayProtection
  dsimp only
  rw [if_neg h0, if_neg h1, if_neg h2, if_pos h3]

theorem rp_accept_noseq (db : List DbMessage) (senderId : String) (n : String)
    (t s : Int) (br : Option String) (now : Int) (st : GateState)
    (h0 : ¬ (n = "" ∨ t = 0)) (h1 : ¬ (now - t < -60000)) (h2 : ¬ (now - t > MAX_NONCE_AGE))
    (h3 : ¬ ((alistGet st.nonceCache n).isSome = true))
    (h4 : ¬ (senderId ≠ "" ∧ br.getD "" ≠ "")) :
    replayProtection db senderId ⟨some n, some t, some s, br⟩ now st =
      (.accepted,
        ⟨alistSet st.nonceCache n ⟨t, senderId, br, s, now⟩, st.sequenceTracking⟩) := by
  unfold replayProtection
  dsimp only
  rw [if_neg h0, if_neg h1, if_neg h2, if_neg h3, if_neg h4]

theorem rp_seq_cached_reject (db : List DbMessage) (senderId : String) (n : String)
    (t s : Int) (br : Option String) (now : Int) (st : GateState) (v : Int)
    (h0 : ¬ (n = "" ∨ t = 0)) (h1 : ¬ (now - t < -60000)) (h2 : ¬ (now - t > MAX_NONCE_AGE))
    (h3 : ¬ ((alistGet st.nonceCache n).isSome = true))
    (h4 : senderId ≠ "" ∧ br.getD "" ≠ "")
    (htr : alistGet st.sequenceTracking (senderId ++ "-" ++ br.getD "") = some v)
    (hle : s ≤ v) :
    replayProtection db senderId ⟨some n, some t, some s, br⟩ now st =
      (.rejected .invalidSequence, st) := by
  unfold replayProtection
  dsimp only
  rw [if_neg h0, if_neg h1, if_neg h2, if_neg h3, if_pos h4, htr]
  dsimp only
  rw [if_pos hle]

theorem rp_seq_cached_accept (db : List DbMessage) (senderId : String) (n : String)
    (t s : Int) (br : Option String) (now : Int) (st : GateState) (v : Int)
    (h0 : ¬ (n = "" ∨ t = 0)) (h1 : ¬ (now - t < -60000)) (h2 : ¬ (now - t > MAX_NONCE_AGE))
    (h3 : ¬ ((alistGet st.nonceCache n).isSome = true))
    (h4 : senderId ≠ "" ∧ br.getD "" ≠ "")
    (htr : alistGet st.sequenceTracking (senderId ++ "-" ++ br.getD "") = some v)
    (hgt : ¬ (s ≤ v)) :
    replayProtection db senderId ⟨some n, some t, some s, br⟩ now st =
      (.accepted,
        { nonceCache := alistSet st.nonceCache n ⟨t, senderId, br, s, now⟩,
          sequenceTracking :=
            alistSet (alistSet st.sequenceTracking
              (senderId ++ "-" ++ br.getD "") s) (br.getD "" ++ "-" ++ senderId) s }) := by
  unfold replayProtection
  dsimp only
  rw [if_neg h0, if_neg h1, if_neg h2, if_neg h3, if_pos h4, htr]
  dsimp only
  rw [if_neg hgt]

theorem rp_seq_miss_reject (db : List DbMessage) (senderId : String) (n : String)
    (t s : Int) (br : Option String) (now : Int) (st : GateState)
    (h0 : ¬ (n = "" ∨ t = 0)) (h1 : ¬ (now - t < -60000)) (h2 : ¬ (now - t > MAX_NONCE_AGE))
    (h3 : ¬ ((alistGet st.nonceCache n).isSome = true))
    (h4 : senderId ≠ "" ∧ br.getD "" ≠ "")
    (htr : alistGet st.sequenceTracking (senderId ++ "-" ++ br.getD "") = none)
    (hle : s ≤ (dbLastSeq db senderId (br.getD "")).getD 0) :
    replayProtection db senderId ⟨some n, some t, some s, br⟩ now st =
      (.rejected .invalidSequence,
        ⟨st.nonceCache,
          alistSet
            (alistSet st.sequenceTracking (senderId ++ "-" ++ br.getD "")
              ((dbLastSeq db senderId (br.getD "")).getD 0))
            (br.getD "" ++ "-" ++ senderId) ((dbLastSeq db senderId (br.getD "")).getD 0)⟩) := by
  unfold replayProtection
  dsimp only
  rw [if_neg h0, if_neg h1, if_neg h2, if_neg h3, if_pos h4, htr]
  dsimp only
  rw [if_pos hle]

theorem rp_seq_miss_accept (db : List DbMessage) (senderId : String) (n : String)
    (t s : Int) (br : Option String) (now : Int) (st : GateState)
    (h0 : ¬ (n = "" ∨ t = 0)) (h1 : ¬ (now - t < -60000)) (h2 : ¬ (now - t > MAX_NONCE_AGE))
    (h3 : ¬ ((alistGet st.nonceCache n).isSome = true))
    (h4 : senderId ≠ "" ∧ br.getD "" ≠ "")
    (htr : alistGet st.sequenceTracking (senderId ++ "-" ++ br.getD "") = none)
    (hgt : ¬ (s ≤ (dbLastSeq db senderId (br.getD "")).getD 0)) :
    replayProtection db senderId ⟨some n, some t, some s, br⟩ now st =
      (.accepted,
        { nonceCache := alistSet st.nonceCache n ⟨t, senderId, br, s, now⟩,
          sequenceTracking :=
            alistSet (alistSet (alistSet (alistSet st.sequenceTracking
                  (senderId ++ "-" ++ br.getD "") ((dbLastSeq db senderId (br.getD "")).getD 0))
                (br.getD "" ++ "-" ++ senderId) ((dbLastSeq db senderId (br.getD "")).getD 0))
              (senderId ++ "-" ++ br.getD "") s) (br.getD "" ++ "-" ++ senderId) s }) := by
  unfold replayProtection
  dsimp only
  rw [if_neg h0, if_neg h1, if_neg h2, if_neg h3, if_pos h4, htr]
  dsimp only
  rw [if_neg hgt]

/-- With a truthy nonce and timestamp, the gate never answers
`missing-replay-fields`, whatever else happens. -/
theorem rp_fst_ne_missing (db : List DbMessage) (senderId : String) (n : String)
    (t s : Int) (br : Option String) (now : Int) (st : GateState)
    (hn : n ≠ "") (ht : t ≠ 0) :
    (replayProtection db senderId ⟨some n, some t, some s, br⟩ now st).1 ≠
      .rejected .missingFields := by
  have h0 : ¬ (n = "" ∨ t = 0) := by tauto
  by_cases h1 : now - t < -60000
  · rw [rp_future db senderId n t s br now st h0 h1]; simp
  by_cases h2 : now - t > MAX_NONCE_AGE
  · rw [rp_old db senderId n t s br now st h0 h1 h2]; simp
  by_cases h3 : (alistGet st.nonceCache n).isSome = true
  · rw [rp_dup db senderId n t s br now st h0 h1 h2 h3]; simp
  by_cases h4 : senderId ≠ "" ∧ br.getD "" ≠ ""
  · rcases htr : alistGet st.sequenceTracking (senderId ++ "-" ++ br.getD "") with _ | v
    · by_cases hle : s ≤ (dbLastSeq db senderId (br.getD "")).getD 0
      · rw [rp_seq_miss_reject db senderId n t s br now st h0 h1 h2 h3 h4 htr hle]; simp
      · rw [rp_seq_miss_accept db senderId n t s br now st h0 h1 h2 h3 h4 htr hle]; simp
    · by_cases hle : s ≤ v
      · rw [rp_seq_cached_reject db senderId n t s br now st v h0 h1 h2 h3 h4 htr hle]; simp
      · rw [rp_seq_cached_accept db senderId n t s br now st v h0 h1 h2 h3 h4 htr hle]; simp
  · rw [rp_accept_noseq db senderId n t s br now st h0 h1 h2 h3 h4]; simp

/-- C10 --- zero-valued replay fields are treated as missing by the decoder:
a record whose `sequenceNumber` or `timestamp` equals 0 makes
`decryptMessage` throw the missing-replay-fields error even though the field
is structurally present (JavaScript truthiness); the relay gate's presence
check, in contrast, admits `sequenceNumber` 0 (it tests `=== undefined` and
then rejects it for another reason, never as missing) but treats
`timestamp` 0 as missing. -/
theorem zero_replay_fields :
    (∀ (g : GcmPrim) (tc : TextCodec) (em : EncryptedMessage) (key : List Nat),
       em.sequenceNumber = 0 →
       decryptMessage g tc em key = .error "Missing replay protection fields") ∧
    (∀ (g : GcmPrim) (tc : TextCodec) (em : EncryptedMessage) (key : List Nat),
       em.timestamp = 0 →
       decryptMessage g tc em key = .error "Missing replay protection fields") ∧
    (∀ (db : List DbMessage) (senderId n : String) (t : Int) (br : Option String)
       (now : Int) (st : GateState), n ≠ "" → t ≠ 0 →
       (replayProtection db senderId ⟨some n, some t, some 0, br⟩ now st).1 ≠
         .rejected .missingFields) ∧
    (∀ (db : List DbMessage) (senderId : String) (body : SendBody) (now : Int)
       (st : GateState), body.timestamp = some 0 →
       (replayProtection db senderId body now st).1 = .rejected .missingFields) := by
  refine ⟨?_, ?_, ?_, ?_⟩
  · intro g tc em key h
    unfold decryptMessage
    rw [if_pos (Or.inr (Or.inr h))]
  · intro g tc em key h
    unfold decryptMessage
    rw [if_pos (Or.inr (Or.inl h))]
  · intro db senderId n t br now st hn ht
    exact rp_fst_ne_missing db senderId n t 0 br now st hn ht
  · intro db senderId body now st ht
    obtain ⟨bn, bt, bs, br⟩ := body
    simp only at ht
    subst ht
    cases bn with
    | none =>
      rw [rp_missing_none db senderId ⟨none, some 0, bs, br⟩ now st (Or.inl rfl)]
    | some n =>
      cases bs with
      | none =>
        rw [rp_missing_none db senderId ⟨some n, some 0, none, br⟩ now st
          (Or.inr (Or.inr rfl))]
      | some s =>
        rw [rp_missing_falsy db senderId n 0 s br now st (Or.inr rfl)]

/-- C10 witness: the four parts at concrete inputs. -/
theorem zero_replay_fields_witness :
    (decryptMessage gcmModel codecModel ⟨"c", "i", "t", 5, 0, "AAAAAAAAAAAAAAAA"⟩ [] =
       .error "Missing replay protection fields") ∧
    (decryptMessage gcmModel codecModel ⟨"c", "i", "t", 0, 7, "AAAAAAAAAAAAAAAA"⟩ [] =
       .error "Missing replay protection fields") ∧
    ((replayProtection [] "a" ⟨some "AAAAAAAAAAAAAAAA", some 1, some 0, some "b"⟩ 1 ⟨[], []⟩).1 ≠
       .rejected .missingFields) ∧
    ((replayProtection [] "a" ⟨some "AAAAAAAAAAAAAAAA", some 0, some 1, some "b"⟩ 1 ⟨[], []⟩).1 =
       .rejected .missingFields) :=
  ⟨zero_replay_fields.1 gcmModel codecModel _ [] rfl,
   zero_replay_fields.2.1 gcmModel codecModel _ [] rfl,
   zero_replay_fields.2.2.1 [] "a" "AAAAAAAAAAAAAAAA" 1 (some "b") 1 ⟨[], []⟩
     (by decide) (by decide),
   zero_replay_fields.2.2.2 [] "a" ⟨some "AAAAAAAAAAAAAAAA", some 0, some 1, some "b"⟩ 1
     ⟨[], []⟩ rfl⟩

/-- C9 amended --- the replay triple is not bound into the AEAD: for any two
records that agree on ciphertext, iv and tag and whose replay fields pass
the decoder's structural checks (truthiness presence and nonce format), the
decoder's result is identical --- the nonce, timestamp and sequence number
never reach the AES-GCM invocation. -/
theorem decrypt_ignores_replay_triple (g : GcmPrim) (tc : TextCodec) (key : List Nat)
    (r1 r2 : EncryptedMessage)
    (hct : r1.ciphertext = r2.ciphertext) (hiv : r1.iv = r2.iv) (htag : r1.tag = r2.tag)
    (h1n : r1.nonce ≠ "") (h1t : r1.timestamp ≠ 0) (h1s : r1.sequenceNumber ≠ 0)
    (h1v : validateNonce r1.nonce = true)
    (h2n : r2.nonce ≠ "") (h2t : r2.timestamp ≠ 0) (h2s : r2.sequenceNumber ≠ 0)
    (h2v : validateNonce r2.nonce = true) :
    decryptMessage g tc r1 key = decryptMessage g tc r2 key := by
  have hne1 : ¬ (r1.nonce = "" ∨ r1.timestamp = 0 ∨ r1.sequenceNumber = 0) := by
    simp [h1n, h1t, h1s]
  have hne2 : ¬ (r2.nonce = "" ∨ r2.timestamp = 0 ∨ r2.sequenceNumber = 0) := by
    simp [h2n, h2t, h2s]
  unfold decryptMessage
  rw [if_neg hne1, if_neg hne2, if_pos h1v, if_pos h2v, hct, hiv, htag]

/-- C9 witness: two records differing in nonce, timestamp and sequence
number but with the same ciphertext, iv and tag decode identically. -/
theorem decrypt_ignores_replay_triple_witness :
    decryptMessage gcmModel codecModel
        ⟨"", "", "AAAAAAAAAAAAAAAAAAAAAA==", 1, 1, "AAAAAAAAAAAAAAAA"⟩ [] =
      decryptMessage gcmModel codecModel
        ⟨"", "", "AAAAAAAAAAAAAAAAAAAAAA==", 9, 4, "BBBBBBBBBBBBBBBB"⟩ [] :=
  decrypt_ignores_replay_triple gcmModel codecModel []
    ⟨"", "", "AAAAAAAAAAAAAAAAAAAAAA==", 1, 1, "AAAAAAAAAAAAAAAA"⟩
    ⟨"", "", "AAAAAAAAAAAAAAAAAAAAAA==", 9, 4, "BBBBBBBBBBBBBBBB"⟩
    rfl rfl rfl (by decide) (by decide) (by decide) (by decide)
    (by decide) (by decide) (by decide) (by decide)

/-- C9 counterexample: as stated, the claim fails for records whose replay
fields are structurally present but zero-valued. The two records below agree
on ciphertext, iv and tag, both carry nonces of valid base64 format with at
least 16 characters, and differ only in `timestamp` (1 vs 0); with the model
AEAD (which satisfies the AES-GCM contract) the first decrypts successfully
while the second fails with the missing-replay-fields error --- tampering
the timestamp to 0 alone produces a decryption failure. -/
theorem decrypt_replay_triple_counterexample :
    validateNonce "AAAAAAAAAAAAAAAA" = true ∧
    decryptMessage gcmModel codecModel
        ⟨"", "", "AAAAAAAAAAAAAAAAAAAAAA==", 1, 1, "AAAAAAAAAAAAAAAA"⟩ [] = .ok "" ∧
    decryptMessage gcmModel codecModel
        ⟨"", "", "AAAAAAAAAAAAAAAAAAAAAA==", 0, 1, "AAAAAAAAAAAAAAAA"⟩ [] =
      .error "Missing replay protection fields" := by
  refine ⟨by decide, ?_, ?_⟩ <;> rfl

/-- A run of the gate that accepts a message whose client timestamp is near
the old edge of the freshness window: accepted at `now = 200000` with
timestamp 1. -/
def sweepDemoRun : GateResult × GateState :=
  replayProtection [] "a" ⟨some "AAAAAAAAAAAAAAAA", some 1, some 1, some "b"⟩ 200000 ⟨[], []⟩

/-- C6 counterexample: the sweep evicts by the stored client `timestamp`,
not by `acceptedAt`. The accepted entry below (timestamp 1, accepted at
200000) is evicted by a sweep at 300002 --- only 100002 ms after acceptance,
well inside the 5-minute window the claim promises. -/
theorem nonce_eviction_counterexample :
    sweepDemoRun.1 = .accepted ∧
    sweepDemoRun.2.nonceCache.map (fun p => p.2.acceptedAt) = [200000] ∧
    sweepDemoRun.2.nonceCache.map (fun p => p.2.timestamp) = [1] ∧
    nonceSweep sweepDemoRun.2.nonceCache 300002 = [] ∧
    (300002 : Int) - 200000 ≤ MAX_NONCE_AGE := by
  refine ⟨rfl, rfl, rfl, rfl, by decide⟩

/-- C6 amended --- the background sweep removes exactly those cache entries
whose recorded client `timestamp` (not their accepted-at time) is more than
5 minutes in the past. A nonce can therefore leave the cache earlier than
5 minutes after acceptance, but only once its timestamp is so stale that the
gate's timestamp layer rejects any replay carrying it (at the sweep's time
or later). -/
theorem nonce_eviction_amended :
    (∀ (cache : List (String × CacheEntry)) (now : Int) (p : String × CacheEntry),
       p ∈ nonceSweep cache now ↔ p ∈ cache ∧ now - p.2.timestamp ≤ MAX_NONCE_AGE) ∧
    (∀ (cache : List (String × CacheEntry)) (now : Int) (p : String × CacheEntry),
       p ∈ cache → p ∉ nonceSweep cache now →
       ∀ (db : List DbMessage) (senderId : String) (body : SendBody) (st : GateState)
         (now' : Int), now ≤ now' → body.timestamp = some p.2.timestamp →
         (replayProtection db senderId body now' st).1 ≠ .accepted) := by
  constructor
  · intro cache now p
    simp [nonceSweep, List.mem_filter, not_lt]
  · intro cache now p hp hnot db senderId body st now' hle ht
    have hold : now - p.2.timestamp > MAX_NONCE_AGE := by
      by_contra hcon
      apply hnot
      simp only [nonceSweep, List.mem_filter]
      exact ⟨hp, by simpa using hcon⟩
    obtain ⟨bn, bt, bs, br⟩ := body
    simp only at ht
    subst ht
    cases bn with
    | none =>
      rw [rp_missing_none db senderId ⟨none, some p.2.timestamp, bs, br⟩ now' st (Or.inl rfl)]
      simp
    | some n =>
      cases bs with
      | none =>
        rw [rp_missing_none db senderId ⟨some n, some p.2.timestamp, none, br⟩ now' st
          (Or.inr (Or.inr rfl))]
        simp
      | some s =>
        by_cases hfal : n = "" ∨ p.2.timestamp = 0
        · rw [rp_missing_falsy db senderId n p.2.timestamp s br now' st hfal]
          simp
        · have h1 : ¬ (now' - p.2.timestamp < -60000) := by
            unfold MAX_NONCE_AGE at hold
            omega
          have h2 : now' - p.2.timestamp > MAX_NONCE_AGE := by
            unfold MAX_NONCE_AGE at hold ⊢
            omega
          rw [rp_old db senderId n p.2.timestamp s br now' st hfal h1 h2]
          simp

/-- C6 amended witness: both parts at a concrete evicted entry. -/
theorem nonce_eviction_amended_witness :
    ((("n", (⟨0, "a", some "b", 1, 50⟩ : CacheEntry)) ∈
        nonceSweep [("n", ⟨0, "a", some "b", 1, 50⟩)] 5 ↔
      ("n", (⟨0, "a", some "b", 1, 50⟩ : CacheEntry)) ∈
        [("n", (⟨0, "a", some "b", 1, 50⟩ : CacheEntry))] ∧
        (5 : Int) - 0 ≤ MAX_NONCE_AGE)) ∧
    (replayProtection [] "a" ⟨some "x", some 0, some 1, some "b"⟩ 300001 ⟨[], []⟩).1 ≠
      .accepted :=
  ⟨nonce_eviction_amended.1 ([("n", ⟨0, "a", some "b", 1, 50⟩)]) 5 ("n", ⟨0, "a", some "b", 1, 50⟩),
   nonce_eviction_amended.2 ([("n", ⟨0, "a", some "b", 1, 50⟩)]) 300001
     ("n", ⟨0, "a", some "b", 1, 50⟩) (by decide) (by decide) [] "a"
     ⟨some "x", some 0, some 1, some "b"⟩ ⟨[], []⟩ 300001 (by decide) rfl⟩

theorem alistGet_alistRemove_self {α : Type} (l : List (String × α)) (k : String) :
    alistGet (alistRemove l k) k = none := by
  induction l with
  | nil => rfl
  | cons hd tl ih =>
    obtain ⟨a, b⟩ := hd
    simp only [alistRemove, ne_eq, decide_not] at ih ⊢
    by_cases ha : a = k
    · subst ha
      rw [List.filter_cons, if_neg (by simp)]
      exact ih
    · rw [List.filter_cons, if_pos (by simp [ha])]
      simp [alistGet, ha, ih]

/-- The table of the C5 counterexample: one pending exchange between peers
`A` and `B`, nobody has confirmed. -/
def confirmDemoTable : List (String × PendingExchange) :=
  [("x", ⟨"A", "B", "pk", "sig", 0, 0, none, none, none, none, []⟩)]

/-- C5 counterexample: two authenticated users `C` and `D`, neither of them
a party to the exchange, confirm it; after the second confirmation
`confirmedBy.length >= 2` holds and the relay deletes the PendingExchange
although neither peer `A` nor `B` ever confirmed. -/
theorem confirm_deletion_counterexample :
    (confirmExchange confirmDemoTable "C" (some "x") (some "h")).1 = .confirmed false ∧
    (confirmExchange (confirmExchange confirmDemoTable "C" (some "x") (some "h")).2 "D"
        (some "x") (some "h")).1 = .confirmed true ∧
    alistGet (confirmExchange (confirmExchange confirmDemoTable "C" (some "x") (some "h")).2
        "D" (some "x") (some "h")).2 "x" = none ∧
    (("A" : String) ≠ "C" ∧ ("A" : String) ≠ "D" ∧ ("B" : String) ≠ "C" ∧
     ("B" : String) ≠ "D") := by
  refine ⟨rfl, rfl, rfl, by decide⟩

/-- C5 amended --- confirmation-gated deletion as implemented: a confirm
request deletes the PendingExchange exactly when, after adding the (any
authenticated) requester to `confirmedBy`, the list has at least two
entries or contains both peers. In particular two distinct confirmers ---
party or not --- suffice, while a single confirmer alone never deletes a
freshly created exchange unless both peers are that same user. -/
theorem confirm_deletion_amended (table : List (String × PendingExchange))
    (userId eid h : String) (heid : eid ≠ "") (hh : h ≠ "")
    (ex : PendingExchange) (hex : alistGet table eid = some ex) :
    (alistGet (confirmExchange table userId (some eid) (some h)).2 eid = none ↔
       2 ≤ (if userId ∈ ex.confirmedBy then ex.confirmedBy
            else ex.confirmedBy ++ [userId]).length ∨
       (ex.fromUserId ∈ (if userId ∈ ex.confirmedBy then ex.confirmedBy
                         else ex.confirmedBy ++ [userId]) ∧
        ex.toUserId ∈ (if userId ∈ ex.confirmedBy then ex.confirmedBy
                       else ex.confirmedBy ++ [userId]))) ∧
    (ex.confirmedBy = [] → ¬ (ex.fromUserId = userId ∧ ex.toUserId = userId) →
       (confirmExchange table userId (some eid) (some h)).1 = .confirmed false ∧
       alistGet (confirmExchange table userId (some eid) (some h)).2 eid =
         some { ex with confirmedBy := [userId] }) := by
  have htr : truthyStr (some eid) = true ∧ truthyStr (some h) = true := by
    simp [truthyStr, heid, hh]
  unfold confirmExchange
  rw [if_pos htr]
  simp only [Option.getD_some]
  rw [hex]
  dsimp only
  by_cases hboth : 2 ≤ (if userId ∈ ex.confirmedBy then ex.confirmedBy
        else ex.confirmedBy ++ [userId]).length ∨
      (ex.fromUserId ∈ (if userId ∈ ex.confirmedBy then ex.confirmedBy
                        else ex.confirmedBy ++ [userId]) ∧
       ex.toUserId ∈ (if userId ∈ ex.confirmedBy then ex.confirmedBy
                      else ex.confirmedBy ++ [userId]))
  · rw [if_pos hboth]
    constructor
    · exact iff_of_true (alistGet_alistRemove_self table eid) hboth
    · intro hnil hne
      exfalso
      rw [hnil] at hboth
      simp only [List.not_mem_nil, if_false, List.nil_append, ite_false] at hboth
      rcases hboth with hlen | ⟨hf, ht2⟩
      · simp at hlen
      · simp only [List.mem_singleton] at hf ht2
        exact hne ⟨hf, ht2⟩
  · rw [if_neg hboth]
    constructor
    · refine iff_of_false ?_ hboth
      rw [alistGet_alistSet]
      simp
    · intro hnil hne
      refine ⟨rfl, ?_⟩
      rw [alistGet_alistSet]
      simp [hnil]

/-- C5 amended witness: when the second peer of the exchange confirms after
the first, the entry is deleted. -/
theorem confirm_deletion_amended_witness :
    alistGet (confirmExchange
        [("x", (⟨"A", "B", "pk", "sig", 0, 0, none, none, none, none, ["A"]⟩ :
          PendingExchange))] "B" (some "x") (some "h")).2 "x" = none :=
  ((confirm_deletion_amended
      [("x", ⟨"A", "B", "pk", "sig", 0, 0, none, none, none, none, ["A"]⟩)]
      "B" "x" "h" (by decide) (by decide)
      ⟨"A", "B", "pk", "sig", 0, 0, none, none, none, none, ["A"]⟩ rfl).1).mpr
    (by decide)

theorem validMessage_fields (m : DbMessage) (now : Int) (h : validMessage m now = true) :
    m.recipientId ≠ "" ∧ m.ciphertext ≠ "" ∧ m.iv ≠ "" ∧ m.tag ≠ "" ∧ m.nonce ≠ "" ∧
      0 < m.sequenceNumber := by
  unfold validMessage at h
  simp only [Bool.and_eq_true, decide_eq_true_eq, ne_eq] at h
  tauto

/-- C7 --- durable backstop error mapping: the persistent store declares
`nonce` globally unique and checks sequence monotonicity for the
conversation on insert; the `/messages/send` handler answers
400 `duplicate-nonce` exactly when the insert fails with the store's
uniqueness-constraint violation (MongoDB error code 11000), never mapping it
to a generic storage error. Conjuncts: (1) the 400 `duplicate-nonce`
response and the duplicate-key failure coincide; (2) a duplicate-key failure
really means a stored message already carries the nonce; (3) a colliding
nonce on an otherwise valid, sequence-fresh insert fails as duplicate-key;
(4) a successful insert implies strict sequence monotonicity, a fresh nonce,
and a positive sequence number. -/
theorem durable_backstop (db : List DbMessage) (senderId recipientId ct iv tag nonce : String)
    (ts seq now : Int) :
    ((handleSend db senderId recipientId ct iv tag nonce ts seq now).1 =
        .badRequestDuplicateNonce ↔
      messageSave db ⟨senderId, recipientId, ct, iv, tag, ts, seq, nonce⟩ now =
        .error .dupKey) ∧
    (messageSave db ⟨senderId, recipientId, ct, iv, tag, ts, seq, nonce⟩ now =
        .error .dupKey →
      db.any (fun m0 => m0.nonce = nonce) = true) ∧
    (validMessage ⟨senderId, recipientId, ct, iv, tag, ts, seq, nonce⟩ now = true →
      (dbLastSeq db senderId recipientId).any (fun v => decide (seq ≤ v)) = false →
      db.any (fun m0 => m0.nonce = nonce) = true →
      messageSave db ⟨senderId, recipientId, ct, iv, tag, ts, seq, nonce⟩ now =
        .error .dupKey) ∧
    (∀ db', messageSave db ⟨senderId, recipientId, ct, iv, tag, ts, seq, nonce⟩ now =
        .ok db' →
      (dbLastSeq db senderId recipientId).getD 0 < seq ∧
      db.any (fun m0 => m0.nonce = nonce) = false ∧ 0 < seq) := by
  by_cases hv : validMessage ⟨senderId, recipientId, ct, iv, tag, ts, seq, nonce⟩ now = true
  · obtain ⟨hrid, hct, hiv, htag, hnonce, hpos⟩ := validMessage_fields _ now hv
    have hmiss : ¬ (recipientId = "" ∨ ct = "" ∨ iv = "" ∨ tag = "" ∨ nonce = "") := by
      simp only at hrid hct hiv htag hnonce
      tauto
    by_cases hseq : (dbLastSeq db senderId recipientId).any (fun v => decide (seq ≤ v)) = true
    · have hsave : messageSave db ⟨senderId, recipientId, ct, iv, tag, ts, seq, nonce⟩ now =
          .error .validation := by
        unfold messageSave
        rw [if_pos hv, if_pos hseq]
      refine ⟨?_, ?_, ?_, ?_⟩
      · unfold handleSend
        rw [if_neg hmiss, hsave]
        exact iff_of_false (by simp) (by simp)
      · intro hc
        rw [hsave] at hc
        simp at hc
      · intro _ hseq' _
        rw [hseq'] at hseq
        simp at hseq
      · intro db' hc
        rw [hsave] at hc
        simp at hc
    · by_cases hdup : db.any (fun m0 => m0.nonce = nonce) = true
      · have hsave : messageSave db ⟨senderId, recipientId, ct, iv, tag, ts, seq, nonce⟩ now =
            .error .dupKey := by
          unfold messageSave
          rw [if_pos hv, if_neg hseq, if_pos hdup]
        refine ⟨?_, fun _ => hdup, fun _ _ _ => hsave, ?_⟩
        · unfold handleSend
          rw [if_neg hmiss, hsave]
          exact iff_of_true rfl rfl
        · intro db' hc
          rw [hsave] at hc
          simp at hc
      · have hsave : messageSave db ⟨senderId, recipientId, ct, iv, tag, ts, seq, nonce⟩ now =
            .ok (db ++ [⟨senderId, recipientId, ct, iv, tag, ts, seq, nonce⟩]) := by
          unfold messageSave
          rw [if_pos hv, if_neg hseq, if_neg hdup]
        refine ⟨?_, ?_, ?_, ?_⟩
        · unfold handleSend
          rw [if_neg hmiss, hsave]
          exact iff_of_false (by simp) (by simp [hsave])
        · intro hc
          rw [hsave] at hc
          simp at hc
        · intro _ _ hdup'
          rw [hdup'] at hdup
          simp at hdup
        · intro db' _
          refine ⟨?_, by simpa using hdup, by simpa using hpos⟩
          rcases hlast : dbLastSeq db senderId recipientId with _ | v
          · simpa using hpos
          · rw [hlast] at hseq
            simp only [Option.any_some, decide_eq_true_eq] at hseq
            simp only [Option.getD_some]
            omega
  · have hsave : messageSave db ⟨senderId, recipientId, ct, iv, tag, ts, seq, nonce⟩ now =
        .error .validation := by
      unfold messageSave
      rw [if_neg hv]
    refine ⟨?_, ?_, fun hvv => absurd hvv hv, ?_⟩
    · constructor
      · intro hc
        exfalso
        unfold handleSend at hc
        by_cases hmiss : recipientId = "" ∨ ct = "" ∨ iv = "" ∨ tag = "" ∨ nonce = ""
        · rw [if_pos hmiss] at hc
          simp at hc
        · rw [if_neg hmiss, hsave] at hc
          simp at hc
      · intro hc
        rw [hsave] at hc
        simp at hc
    · intro hc
      rw [hsave] at hc
      simp at hc
    · intro db' hc
      rw [hsave] at hc
      simp at hc

/-- C7 witness: sending a message whose nonce collides with a stored one
(fresh sequence number, valid fields) yields 400 `duplicate-nonce`. -/
theorem durable_backstop_witness :
    (handleSend [⟨"a", "b", "c1", "i1", "t1", 90, 1, "AAAAAAAAAAAAAAAA"⟩]
        "a" "b" "c2" "i2" "t2" "AAAAAAAAAAAAAAAA" 100 2 100).1 =
      .badRequestDuplicateNonce :=
  (durable_backstop [⟨"a", "b", "c1", "i1", "t1", 90, 1, "AAAAAAAAAAAAAAAA"⟩]
      "a" "b" "c2" "i2" "t2" "AAAAAAAAAAAAAAAA" 100 2 100).1.mpr rfl

/-- Modelled from the spec: C2's acceptance condition as the claim words it
--- the body *carries* nonce, timestamp and sequence-number (structural
presence), the timestamp lies in `[now - 5 min, now + 1 min]`, the nonce is
not cached, and the sequence number strictly exceeds the last-seen sequence
of the conversation (tracker first, store on a miss). -/
def gateSpecAccept (db : List DbMessage) (senderId : String) (body : SendBody)
    (now : Int) (st : GateState) : Prop :=
  body.nonce.isSome = true ∧ body.timestamp.isSome = true ∧
  body.sequenceNumber.isSome = true ∧
  now - MAX_NONCE_AGE ≤ body.timestamp.getD 0 ∧ body.timestamp.getD 0 ≤ now + 60000 ∧
  alistGet st.nonceCache (body.nonce.getD "") = none ∧
  effectiveLastSeen db st senderId (body.recipientId.getD "") < body.sequenceNumber.getD 0

/-- The acceptance condition the middleware actually implements: presence is
JavaScript truthiness (non-empty nonce, non-zero timestamp; a sequence
number merely has to be present), and the sequence layer only runs when the
authenticated sender and the body's recipient id are both truthy. -/
def gateCodeAccept (db : List DbMessage) (senderId : String) (body : SendBody)
    (now : Int) (st : GateState) : Prop :=
  truthyStr body.nonce = true ∧ truthyInt body.timestamp = true ∧
  body.sequenceNumber.isSome = true ∧
  now - MAX_NONCE_AGE ≤ body.timestamp.getD 0 ∧ body.timestamp.getD 0 ≤ now + 60000 ∧
  alistGet st.nonceCache (body.nonce.getD "") = none ∧
  (senderId ≠ "" → body.recipientId.getD "" ≠ "" →
    effectiveLastSeen db st senderId (body.recipientId.getD "") <
      body.sequenceNumber.getD 0)

/-- C2 counterexample: a request that satisfies every condition of the
claim --- all three fields carried, fresh timestamp, unseen nonce, sequence
number above the (empty) history --- but whose nonce is the empty string.
The claim says the gate accepts; the middleware rejects it as
`missing-replay-fields` because presence is tested by truthiness. -/
theorem replay_gate_soundness_counterexample :
    gateSpecAccept [] "a" ⟨some "", some 100, some 1, some "b"⟩ 100 ⟨[], []⟩ ∧
    (replayProtection [] "a" ⟨some "", some 100, some 1, some "b"⟩ 100 ⟨[], []⟩).1 =
      .rejected .missingFields := by
  constructor
  · refine ⟨rfl, rfl, rfl, by decide, by decide, rfl, by decide⟩
  · rfl

/-- C2 amended --- replay-gate soundness as implemented: the middleware
calls the next handler iff the nonce is present and non-empty, the
timestamp present and non-zero with `now - timestamp` in
`[-60000, 300000]`, the nonce is not in the cache, and --- whenever the
authenticated sender and the body's recipient id are both truthy --- the
sequence number strictly exceeds the last-seen sequence of the conversation
(in-memory tracker first, persistent store on a miss); with a falsy
recipient id the sequence layer is skipped entirely. -/
theorem replay_gate_soundness_amended (db : List DbMessage) (senderId : String)
    (body : SendBody) (now : Int) (st : GateState) :
    (replayProtection db senderId body now st).1 = .accepted ↔
      gateCodeAccept db senderId body now st := by
  have hM : MAX_NONCE_AGE = 300000 := rfl
  obtain ⟨bn, bt, bs, br⟩ := body
  cases bn with
  | none =>
    rw [rp_missing_none db senderId ⟨none, bt, bs, br⟩ now st (Or.inl rfl)]
    exact iff_of_false (by simp) (by rintro ⟨hc, -⟩; simp [truthyStr] at hc)
  | some n =>
  cases bt with
  | none =>
    rw [rp_missing_none db senderId ⟨some n, none, bs, br⟩ now st (Or.inr (Or.inl rfl))]
    exact iff_of_false (by simp) (by rintro ⟨-, hc, -⟩; simp [truthyInt] at hc)
  | some t =>
  cases bs with
  | none =>
    rw [rp_missing_none db senderId ⟨some n, some t, none, br⟩ now st
      (Or.inr (Or.inr rfl))]
    exact iff_of_false (by simp) (by rintro ⟨-, -, hc, -⟩; simp at hc)
  | some s =>
  by_cases hfal : n = "" ∨ t = 0
  · rw [rp_missing_falsy db senderId n t s br now st hfal]
    refine iff_of_false (by simp) ?_
    rintro ⟨hc1, hc2, -⟩
    simp only [truthyStr, truthyInt, decide_eq_true_eq] at hc1 hc2
    tauto
  · push_neg at hfal
    obtain ⟨hn, ht0⟩ := hfal
    have h0 : ¬ (n = "" ∨ t = 0) := by tauto
    by_cases h1 : now - t < -60000
    · rw [rp_future db senderId n t s br now st h0 h1]
      refine iff_of_false (by simp) ?_
      rintro ⟨-, -, -, -, hw2, -⟩
      simp only [Option.getD_some] at hw2
      omega
    · by_cases h2 : now - t > MAX_NONCE_AGE
      · rw [rp_old db senderId n t s br now st h0 h1 h2]
        refine iff_of_false (by simp) ?_
        rintro ⟨-, -, -, hw1, -⟩
        simp only [Option.getD_some] at hw1
        rw [hM] at h2
        omega
      · by_cases h3 : (alistGet st.nonceCache n).isSome = true
        · rw [rp_dup db senderId n t s br now st h0 h1 h2 h3]
          refine iff_of_false (by simp) ?_
          rintro ⟨-, -, -, -, -, hc, -⟩
          simp only [Option.getD_some] at hc
          rw [hc] at h3
          simp at h3
        · have hcache : alistGet st.nonceCache n = none := by
            rcases ho : alistGet st.nonceCache n with _ | v
            · rfl
            · rw [ho] at h3; simp at h3
          have hcommon : truthyStr (some n) = true ∧ truthyInt (some t) = true ∧
              (some s).isSome = true ∧ now - MAX_NONCE_AGE ≤ (some t).getD 0 ∧
              (some t).getD 0 ≤ now + 60000 := by
            refine ⟨by simp [truthyStr, hn], by simp [truthyInt, ht0], rfl, ?_, ?_⟩
            · simp only [Option.getD_some]
              rw [hM]
              rw [hM] at h2
              omega
            · simp only [Option.getD_some]
              omega
          by_cases h4 : senderId ≠ "" ∧ br.getD "" ≠ ""
          · rcases htr : alistGet st.sequenceTracking (senderId ++ "-" ++ br.getD "")
              with _ | v
            · have heff : effectiveLastSeen db st senderId (br.getD "") =
                  (dbLastSeq db senderId (br.getD "")).getD 0 := by
                unfold effectiveLastSeen
                rw [htr]
                rfl
              by_cases hle : s ≤ (dbLastSeq db senderId (br.getD "")).getD 0
              · rw [rp_seq_miss_reject db senderId n t s br now st h0 h1 h2 h3 h4 htr hle]
                refine iff_of_false (by simp) ?_
                rintro ⟨-, -, -, -, -, -, hg⟩
                have := hg h4.1 h4.2
                rw [heff] at this
                simp only [Option.getD_some] at this
                omega
              · rw [rp_seq_miss_accept db senderId n t s br now st h0 h1 h2 h3 h4 htr hle]
                refine iff_of_true rfl ?_
                refine ⟨hcommon.1, hcommon.2.1, hcommon.2.2.1, hcommon.2.2.2.1,
                  hcommon.2.2.2.2, hcache, ?_⟩
                intro _ _
                rw [heff]
                simp only [Option.getD_some]
                omega
            · have heff : effectiveLastSeen db st senderId (br.getD "") = v := by
                unfold effectiveLastSeen
                rw [htr]
                rfl
              by_cases hle : s ≤ v
              · rw [rp_seq_cached_reject db senderId n t s br now st v h0 h1 h2 h3 h4 htr hle]
                refine iff_of_false (by simp) ?_
                rintro ⟨-, -, -, -, -, -, hg⟩
                have := hg h4.1 h4.2
                rw [heff] at this
                simp only [Option.getD_some] at this
                omega
              · rw [rp_seq_cached_accept db senderId n t s br now st v h0 h1 h2 h3 h4 htr hle]
                refine iff_of_true rfl ?_
                refine ⟨hcommon.1, hcommon.2.1, hcommon.2.2.1, hcommon.2.2.2.1,
                  hcommon.2.2.2.2, hcache, ?_⟩
                intro _ _
                rw [heff]
                simp only [Option.getD_some]
                omega
          · rw [rp_accept_noseq db senderId n t s br now st h0 h1 h2 h3 h4]
            refine iff_of_true rfl ?_
            refine ⟨hcommon.1, hcommon.2.1, hcommon.2.2.1, hcommon.2.2.2.1,
              hcommon.2.2.2.2, hcache, ?_⟩
            intro hs hr
            exact absurd ⟨hs, hr⟩ h4

/-- C2 amended witness: a fully well-formed first message is accepted, and
the acceptance condition holds of it. -/
theorem replay_gate_soundness_amended_witness :
    ((replayProtection [] "a" ⟨some "AAAAAAAAAAAAAAAA", some 90, some 1, some "b"⟩ 100
        ⟨[], []⟩).1 = .accepted ↔
      gateCodeAccept [] "a" ⟨some "AAAAAAAAAAAAAAAA", some 90, some 1, some "b"⟩ 100
        ⟨[], []⟩) ∧
    (replayProtection [] "a" ⟨some "AAAAAAAAAAAAAAAA", some 90, some 1, some "b"⟩ 100
        ⟨[], []⟩).1 = .accepted :=
  ⟨replay_gate_soundness_amended [] "a" ⟨some "AAAAAAAAAAAAAAAA", some 90, some 1, some "b"⟩
     100 ⟨[], []⟩,
   (replay_gate_soundness_amended [] "a" ⟨some "AAAAAAAAAAAAAAAA", some 90, some 1, some "b"⟩
     100 ⟨[], []⟩).mpr
     ⟨by decide, by decide, rfl, by decide, by decide, rfl, fun _ _ => by decide⟩⟩

/-! ### Conversation-key injectivity

The tracker keys are `senderId + "-" + recipientId`. Mongo ObjectIds contain
no `-`, so for well-formed ids the key determines the pair. -/

/-- A well-formed user id: non-empty and dash-free (Mongo ObjectIds are
24-character hex strings). -/
def validId (s : String) : Prop := s ≠ "" ∧ '-' ∉ s.data

theorem append_dash_left_inj (l1 r1 l2 r2 : List Char)
    (h1 : '-' ∉ l1) (h2 : '-' ∉ l2)
    (h : l1 ++ '-' :: r1 = l2 ++ '-' :: r2) : l1 = l2 ∧ r1 = r2 := by
  induction l1 generalizing l2 with
  | nil =>
    cases l2 with
    | nil => simpa using h
    | cons y t =>
      exfalso
      simp only [List.nil_append, List.cons_append, List.cons.injEq] at h
      obtain ⟨hy, -⟩ := h
      subst hy
      exact h2 (List.mem_cons_self _ _)
  | cons x l ih =>
    cases l2 with
    | nil =>
      exfalso
      simp only [List.nil_append, List.cons_append, List.cons.injEq] at h
      obtain ⟨hy, -⟩ := h
      subst hy
      exact h1 (List.mem_cons_self _ _)
    | cons y t =>
      simp only [List.cons_append, List.cons.injEq] at h
      obtain ⟨hxy, hrest⟩ := h
      have hrec := ih t (fun hm => h1 (List.mem_cons_of_mem _ hm))
        (fun hm => h2 (List.mem_cons_of_mem _ hm)) hrest
      exact ⟨by rw [hxy, hrec.1], hrec.2⟩

theorem append_dash_right_inj (l1 r1 l2 r2 : List Char)
    (h1 : '-' ∉ r1) (h2 : '-' ∉ r2)
    (h : l1 ++ '-' :: r1 = l2 ++ '-' :: r2) : l1 = l2 ∧ r1 = r2 := by
  have hrev := congrArg List.reverse h
  simp only [List.reverse_append, List.reverse_cons, List.append_assoc,
    List.singleton_append] at hrev
  have hrec := append_dash_left_inj r1.reverse l1.reverse r2.reverse l2.reverse
    (by simpa using h1) (by simpa using h2) hrev
  exact ⟨List.reverse_injective hrec.2, List.reverse_injective hrec.1⟩

theorem strKey_data (a b : String) :
    (a ++ "-" ++ b).data = a.data ++ '-' :: b.data := by
  simp [String.data_append]

theorem strKey_left_inj (a b c d : String) (ha : '-' ∉ a.data) (hc : '-' ∉ c.data)
    (h : a ++ "-" ++ b = c ++ "-" ++ d) : a = c ∧ b = d := by
  have hd := congrArg String.data h
  rw [strKey_data, strKey_data] at hd
  have hrec := append_dash_left_inj a.data b.data c.data d.data ha hc hd
  exact ⟨string_eq_of_data_eq _ _ hrec.1, string_eq_of_data_eq _ _ hrec.2⟩

theorem strKey_right_inj (a b c d : String) (hb : '-' ∉ b.data) (hd : '-' ∉ d.data)
    (h : a ++ "-" ++ b = c ++ "-" ++ d) : a = c ∧ b = d := by
  have hdata := congrArg String.data h
  rw [strKey_data, strKey_data] at hdata
  have hrec := append_dash_right_inj a.data b.data c.data d.data hb hd hdata
  exact ⟨string_eq_of_data_eq _ _ hrec.1, string_eq_of_data_eq _ _ hrec.2⟩

/-- The reachability invariant of the sequence tracker: for well-formed ids
the two key orders of a conversation hold the same value (every write in the
middleware sets both). -/
def PairConsistent (tr : List (String × Int)) : Prop :=
  ∀ a b : String, validId a → validId b →
    alistGet tr (a ++ "-" ++ b) = alistGet tr (b ++ "-" ++ a)

/-- On a rejection, the result state is either untouched or is the
tracker-miss caching state. -/
theorem rp_reject_state_cases (db : List DbMessage) (senderId : String) (body : SendBody)
    (now : Int) (st : GateState) (k : RejectKind)
    (hrej : (replayProtection db senderId body now st).1 = .rejected k) :
    (replayProtection db senderId body now st).2 = st ∨
    (∃ n t s br, body = SendBody.mk (some n) (some t) (some s) br ∧
      senderId ≠ "" ∧ br.getD "" ≠ "" ∧
      alistGet st.sequenceTracking (senderId ++ "-" ++ br.getD "") = none ∧
      (replayProtection db senderId body now st).2 =
        ⟨st.nonceCache,
          alistSet (alistSet st.sequenceTracking
              (senderId ++ "-" ++ br.getD "") ((dbLastSeq db senderId (br.getD "")).getD 0))
            (br.getD "" ++ "-" ++ senderId) ((dbLastSeq db senderId (br.getD "")).getD 0)⟩) := by
  obtain ⟨bn, bt, bs, br⟩ := body
  cases bn with
  | none =>
    left
    rw [rp_missing_none db senderId ⟨none, bt, bs, br⟩ now st (Or.inl rfl)]
  | some n =>
  cases bt with
  | none =>
    left
    rw [rp_missing_none db senderId ⟨some n, none, bs, br⟩ now st (Or.inr (Or.inl rfl))]
  | some t =>
  cases bs with
  | none =>
    left
    rw [rp_missing_none db senderId ⟨some n, some t, none, br⟩ now st (Or.inr (Or.inr rfl))]
  | some s =>
  by_cases hfal : n = "" ∨ t = 0
  · left
    rw [rp_missing_falsy db senderId n t s br now st hfal]
  by_cases h1 : now - t < -60000
  · left
    rw [rp_future db senderId n t s br now st hfal h1]
  by_cases h2 : now - t > MAX_NONCE_AGE
  · left
    rw [rp_old db senderId n t s br now st hfal h1 h2]
  by_cases h3 : (alistGet st.nonceCache n).isSome = true
  · left
    rw [rp_dup db senderId n t s br now st hfal h1 h2 h3]
  by_cases h4 : senderId ≠ "" ∧ br.getD "" ≠ ""
  · rcases htr : alistGet st.sequenceTracking (senderId ++ "-" ++ br.getD "") with _ | v
    · by_cases hle : s ≤ (dbLastSeq db senderId (br.getD "")).getD 0
      · right
        refine ⟨n, t, s, br, rfl, h4.1, h4.2, htr, ?_⟩
        rw [rp_seq_miss_reject db senderId n t s br now st hfal h1 h2 h3 h4 htr hle]
      · exfalso
        rw [rp_seq_miss_accept db senderId n t s br now st hfal h1 h2 h3 h4 htr hle] at hrej
        simp at hrej
    · by_cases hle : s ≤ v
      · left
        rw [rp_seq_cached_reject db senderId n t s br now st v hfal h1 h2 h3 h4 htr hle]
      · exfalso
        rw [rp_seq_cached_accept db senderId n t s br now st v hfal h1 h2 h3 h4 htr hle]
          at hrej
        simp at hrej
  · exfalso
    rw [rp_accept_noseq db senderId n t s br now st hfal h1 h2 h3 h4] at hrej
    simp at hrej

/-- The gate's accept/reject decision depends on the state only through the
nonce cache and the effective last-seen sequence of the request's own
conversation. -/
theorem rp_decision_congr (db : List DbMessage) (senderId' : String) (body' : SendBody)
    (now' : Int) (st1 st2 : GateState) (hc : st1.nonceCache = st2.nonceCache)
    (he : effectiveLastSeen db st1 senderId' (body'.recipientId.getD "") =
          effectiveLastSeen db st2 senderId' (body'.recipientId.getD "")) :
    (replayProtection db senderId' body' now' st1).1 =
      (replayProtection db senderId' body' now' st2).1 := by
  obtain ⟨bn, bt, bs, br⟩ := body'
  cases bn with
  | none =>
    rw [rp_missing_none db senderId' ⟨none, bt, bs, br⟩ now' st1 (Or.inl rfl),
        rp_missing_none db senderId' ⟨none, bt, bs, br⟩ now' st2 (Or.inl rfl)]
  | some n =>
  cases bt with
  | none =>
    rw [rp_missing_none db senderId' ⟨some n, none, bs, br⟩ now' st1 (Or.inr (Or.inl rfl)),
        rp_missing_none db senderId' ⟨some n, none, bs, br⟩ now' st2 (Or.inr (Or.inl rfl))]
  | some t =>
  cases bs with
  | none =>
    rw [rp_missing_none db senderId' ⟨some n, some t, none, br⟩ now' st1
          (Or.inr (Or.inr rfl)),
        rp_missing_none db senderId' ⟨some n, some t, none, br⟩ now' st2
          (Or.inr (Or.inr rfl))]
  | some s =>
  by_cases hfal : n = "" ∨ t = 0
  · rw [rp_missing_falsy db senderId' n t s br now' st1 hfal,
        rp_missing_falsy db senderId' n t s br now' st2 hfal]
  by_cases h1 : now' - t < -60000
  · rw [rp_future db senderId' n t s br now' st1 hfal h1,
        rp_future db senderId' n t s br now' st2 hfal h1]
  by_cases h2 : now' - t > MAX_NONCE_AGE
  · rw [rp_old db senderId' n t s br now' st1 hfal h1 h2,
        rp_old db senderId' n t s br now' st2 hfal h1 h2]
  by_cases h3 : (alistGet st1.nonceCache n).isSome = true
  · have h3' : (alistGet st2.nonceCache n).isSome = true := by rw [← hc]; exact h3
    rw [rp_dup db senderId' n t s br now' st1 hfal h1 h2 h3,
        rp_dup db senderId' n t s br now' st2 hfal h1 h2 h3']
  have h3' : ¬ ((alistGet st2.nonceCache n).isSome = true) := by rw [← hc]; exact h3
  by_cases h4 : senderId' ≠ "" ∧ br.getD "" ≠ ""
  · have heff : ∀ st : GateState,
        effectiveLastSeen db st senderId' (br.getD "") =
          match alistGet st.sequenceTracking (senderId' ++ "-" ++ br.getD "") with
          | some v => v
          | none => (dbLastSeq db senderId' (br.getD "")).getD 0 := by
      intro st
      unfold effectiveLastSeen
      rcases alistGet st.sequenceTracking (senderId' ++ "-" ++ br.getD "") with _ | v <;> rfl
    rcases htr1 : alistGet st1.sequenceTracking (senderId' ++ "-" ++ br.getD "") with _ | v1 <;>
      rcases htr2 : alistGet st2.sequenceTracking (senderId' ++ "-" ++ br.getD "") with _ | v2
    · by_cases hle : s ≤ (dbLastSeq db senderId' (br.getD "")).getD 0
      · rw [rp_seq_miss_reject db senderId' n t s br now' st1 hfal h1 h2 h3 h4 htr1 hle,
            rp_seq_miss_reject db senderId' n t s br now' st2 hfal h1 h2 h3' h4 htr2 hle]
      · rw [rp_seq_miss_accept db senderId' n t s br now' st1 hfal h1 h2 h3 h4 htr1 hle,
            rp_seq_miss_accept db senderId' n t s br now' st2 hfal h1 h2 h3' h4 htr2 hle]
    · have hv : (dbLastSeq db senderId' (br.getD "")).getD 0 = v2 := by
        have h5 := he
        rw [heff st1, heff st2, htr1, htr2] at h5
        exact h5
      by_cases hle : s ≤ v2
      · rw [rp_seq_miss_reject db senderId' n t s br now' st1 hfal h1 h2 h3 h4 htr1
              (by rw [hv]; exact hle),
            rp_seq_cached_reject db senderId' n t s br now' st2 v2 hfal h1 h2 h3' h4 htr2 hle]
      · rw [rp_seq_miss_accept db senderId' n t s br now' st1 hfal h1 h2 h3 h4 htr1
              (by rw [hv]; exact hle),
            rp_seq_cached_accept db senderId' n t s br now' st2 v2 hfal h1 h2 h3' h4 htr2 hle]
    · have hv : v1 = (dbLastSeq db senderId' (br.getD "")).getD 0 := by
        have h5 := he
        rw [heff st1, heff st2, htr1, htr2] at h5
        exact h5
      by_cases hle : s ≤ v1
      · rw [rp_seq_cached_reject db senderId' n t s br now' st1 v1 hfal h1 h2 h3 h4 htr1 hle,
            rp_seq_miss_reject db senderId' n t s br now' st2 hfal h1 h2 h3' h4 htr2
              (by rw [← hv]; exact hle)]
      · rw [rp_seq_cached_accept db senderId' n t s br now' st1 v1 hfal h1 h2 h3 h4 htr1 hle,
            rp_seq_miss_accept db senderId' n t s br now' st2 hfal h1 h2 h3' h4 htr2
              (by rw [← hv]; exact hle)]
    · have hv : v1 = v2 := by
        have h5 := he
        rw [heff st1, heff st2, htr1, htr2] at h5
        exact h5
      subst hv
      by_cases hle : s ≤ v1
      · rw [rp_seq_cached_reject db senderId' n t s br now' st1 v1 hfal h1 h2 h3 h4 htr1 hle,
            rp_seq_cached_reject db senderId' n t s br now' st2 v1 hfal h1 h2 h3' h4 htr2 hle]
      · rw [rp_seq_cached_accept db senderId' n t s br now' st1 v1 hfal h1 h2 h3 h4 htr1 hle,
            rp_seq_cached_accept db senderId' n t s br now' st2 v1 hfal h1 h2 h3' h4 htr2 hle]
  · rw [rp_accept_noseq db senderId' n t s br now' st1 hfal h1 h2 h3 h4,
        rp_accept_noseq db senderId' n t s br now' st2 hfal h1 h2 h3' h4]

/-- C8 --- rejection atomicity of the replay gate: whenever the middleware
rejects a request (any 400 branch), the observable gate state is unchanged:
the nonce cache is untouched, the effective last-seen sequence (in-memory
tracker, falling back to the store) of every conversation between
well-formed user ids keeps its previous value, and the gate's decision on
any later request from well-formed ids is the same as if the rejected
request had never arrived. The raw tracker may gain entries on the
tracker-miss path, but only caching the value the store already gives; the
hypotheses are the reachability invariant that both key orders of a
conversation agree, and that ids are Mongo-style (non-empty, dash-free). -/
theorem gate_rejection_atomicity (db : List DbMessage) (senderId : String) (body : SendBody)
    (now : Int) (st : GateState) (hsender : validId senderId)
    (hpair : PairConsistent st.sequenceTracking) (k : RejectKind)
    (hrej : (replayProtection db senderId body now st).1 = .rejected k) :
    (replayProtection db senderId body now st).2.nonceCache = st.nonceCache ∧
    (∀ s' r' : String, validId s' → validId r' →
       effectiveLastSeen db (replayProtection db senderId body now st).2 s' r' =
         effectiveLastSeen db st s' r') ∧
    (∀ (senderId' : String) (body' : SendBody) (now' : Int),
       validId senderId' → validId (body'.recipientId.getD "") →
       (replayProtection db senderId' body' now'
           (replayProtection db senderId body now st).2).1 =
         (replayProtection db senderId' body' now' st).1) := by
  rcases rp_reject_state_cases db senderId body now st k hrej with hst |
    ⟨n, t, s, br, hbody, hs0, hr0, htr, hst⟩
  · rw [hst]
    exact ⟨rfl, fun _ _ _ _ => rfl, fun _ _ _ _ _ => rfl⟩
  · have hcache : (replayProtection db senderId body now st).2.nonceCache = st.nonceCache := by
      rw [hst]
    have heffeq : ∀ s' r' : String, validId s' → validId r' →
        effectiveLastSeen db (replayProtection db senderId body now st).2 s' r' =
          effectiveLastSeen db st s' r' := by
      intro s' r' hs' hr'
      rw [hst]
      unfold effectiveLastSeen
      dsimp only
      rw [alistGet_alistSet, alistGet_alistSet]
      by_cases hk2 : s' ++ "-" ++ r' = br.getD "" ++ "-" ++ senderId
      · rw [if_pos hk2]
        obtain ⟨hsr, hrs⟩ := strKey_right_inj s' r' (br.getD "") senderId hr'.2 hsender.2 hk2
        have hold : alistGet st.sequenceTracking (s' ++ "-" ++ r') = none := by
          rw [hpair s' r' hs' hr', hrs, hsr]
          exact htr
        rw [hold]
        simp only [Option.getD_some, Option.getD_none]
        rw [hsr, hrs, dbLastSeq_comm db (br.getD "") senderId]
      · rw [if_neg hk2]
        by_cases hk1 : s' ++ "-" ++ r' = senderId ++ "-" ++ br.getD ""
        · rw [if_pos hk1]
          obtain ⟨hsr, hrs⟩ := strKey_left_inj s' r' senderId (br.getD "") hs'.2 hsender.2 hk1
          have hold : alistGet st.sequenceTracking (s' ++ "-" ++ r') = none := by
            rw [hsr, hrs]
            exact htr
          rw [hold]
          simp only [Option.getD_some, Option.getD_none]
          rw [hsr, hrs]
        · rw [if_neg hk1]
    refine ⟨hcache, heffeq, ?_⟩
    intro senderId' body' now' hs' hr'
    exact rp_decision_congr db senderId' body' now'
      (replayProtection db senderId body now st).2 st hcache
      (heffeq senderId' (body'.recipientId.getD "") hs' hr')

/-- C8 witness: a rejected request (zero timestamp) leaves the empty state
observably unchanged. -/
theorem gate_rejection_atomicity_witness :
    (replayProtection [] "a" ⟨some "x", some 0, some 1, some "b"⟩ 5 ⟨[], []⟩).2.nonceCache =
      [] :=
  (gate_rejection_atomicity [] "a" ⟨some "x", some 0, some 1, some "b"⟩ 5 ⟨[], []⟩
     ⟨by decide, by decide⟩ (fun _ _ _ _ => rfl) .missingFields rfl).1

end Cipherlink
